import Mathlib

/-! # polymorphic_memory: a verification development

A shallow embedding of `polymorphic_memory.hpp` and machine-checked statements
about it.

Modelling conventions.

* A C++ type is a class name together with its top-level `const`/`volatile`
  qualification and its reference category (`CppType`).  `std::decay_t` strips
  both.  Template type lists (`class... Types`) are `List (CppType C)`.
* The user's class hierarchy is a parameter (`ClassEnv`): `derives B D` is
  `std::is_base_of_v<B, D>` on class types (public, unambiguous inheritance;
  `Base` is polymorphic so that `dynamic_cast` is available), and `slice T M v`
  is the value of the `T` subobject of an object of most-derived class `M`
  whose value is `v` (copy constructors are value preserving).
* A heap object is its most-derived class and its value (`Obj`); a reference
  or non-null pointer to an object is modelled by the object referred to.
* The outcome of evaluating an expression is an `Outcome`: a normal result, a
  thrown `std::bad_cast`, a failed `assert` (assertions enabled), undefined
  behaviour, or rejection of the program at build time (a disabled
  `enable_if` overload, a missing member, a failed `static_assert`).
* The inline container `static_ptr` is its `std::variant`: the position of the
  active alternative in the list and the held object, or `std::monostate`.
* Unqualified uses of `detail` names inside the containers are read as the
  `detail` entities of the same name, and the `is_base_of<...> || ...` guard
  of the conversion operator as the disjunction of the two `is_base_of_v`
  values.
* `int` tags are unbounded integers: the tags the code computes are list
  positions or `-1`.
-/

namespace polymorphic_memory

/-- Reference category of a C++ type: `T`, `T&` or `T&&`. -/
inductive RefKind where
  | none
  | lvalue
  | rvalue
deriving DecidableEq, Repr

/-- A possibly cv-qualified, possibly reference-qualified class type. -/
structure CppType (C : Type) where
  name : C
  is_const : Bool
  is_volatile : Bool
  ref : RefKind
deriving DecidableEq, Repr

namespace CppType

variable {C : Type}

/-- The unqualified class type named `c`. -/
def plain (c : C) : CppType C := ⟨c, false, false, RefKind.none⟩

/-- The type `std::decay_t<T>`: reference and cv qualification removed. -/
def decay (T : CppType C) : CppType C := plain T.name

/-- The type `const T &` of `const auto &casted = ...downcast<T>()`. -/
def const_lref (T : CppType C) : CppType C := ⟨T.name, true, T.is_volatile, RefKind.lvalue⟩

end CppType

/-- The class hierarchy and value semantics supplied by the user's classes. -/
structure ClassEnv (C V : Type) where
  /-- Relation `derives B D`: class `B` is `D` or a base class of `D`. -/
  derives : C → C → Bool
  derives_refl : ∀ c, derives c c = true
  /-- Function `slice T M v`: value of the `T` subobject of an `M` object of value `v`. -/
  slice : C → C → V → V
  slice_self : ∀ c v, slice c c v = v

/-- How the evaluation of an expression ends. -/
inductive Outcome (α : Type) where
  | ok (a : α)
  | bad_cast
  | assert_failure
  | undefined
  | ill_formed
deriving DecidableEq, Repr

namespace Outcome

variable {α β : Type}

/-- Sequencing: continue with the result, propagate every other ending. -/
def bind : Outcome α → (α → Outcome β) → Outcome β
  | ok a, f => f a
  | bad_cast, _ => bad_cast
  | assert_failure, _ => assert_failure
  | undefined, _ => undefined
  | ill_formed, _ => ill_formed

/-- Apply a function to a normal result. -/
def map (f : α → β) (o : Outcome α) : Outcome β := o.bind fun a => ok (f a)

end Outcome

/-- A live object: its most-derived class and its value. -/
structure Obj (C V : Type) where
  cls : C
  val : V
deriving DecidableEq, Repr

namespace detail

variable {T : Type}

/-- The trait `ith<I, Types...>`: the primary template is incomplete, so an
exhausted list has no `type`. -/
def ith : Int → List T → Option T
  | _, [] => none
  | I, t :: Remaining => if I = 0 then some t else ith (I - 1) Remaining

/-- The trait `type_index<Key, Types...>`: the specialisation for an empty list
has no `value` member (its `static_assert` tests a string literal, which is
true), so reading `value` there does not build. -/
def type_index [DecidableEq T] (Key : T) : List T → Option Int
  | [] => none
  | Current :: Remaining =>
    if Key = Current then some 0 else (type_index Key Remaining).map fun v => 1 + v

end detail

variable {C V : Type}

/-- The trait `std::is_base_of_v<Base, D>` for a class `Base`: cv qualification
of `D` is ignored, a reference type is not a class type. -/
def is_base_of_v (env : ClassEnv C V) (Base : C) (D : CppType C) : Bool :=
  decide (D.ref = RefKind.none) && env.derives Base D.name

/-- Whether `std::unique_ptr<D>` converts to `std::unique_ptr<Base>`, that is
whether `D *` converts to `Base *` for the unqualified class `Base`: `D` is an
object type without cv qualification that is `Base` or derives from it. -/
def unique_ptr_convertible (env : ClassEnv C V) (Base : C) (D : CppType C) : Bool :=
  decide (D.ref = RefKind.none) && !D.is_const && !D.is_volatile && env.derives Base D.name

/-- Whether an object of the class `std::decay_t<D>` can be built from the
forwarded argument `std::forward<D>(x)`: the implicit copy and move
constructors take `const T &` and `T &&`, to which an argument of
volatile-qualified type does not bind. -/
def constructible_from_forwarded (D : CppType C) : Bool := !D.is_volatile

namespace detail

/-- The trait `are_all_derived<Base, Derived...>`. -/
def are_all_derived (env : ClassEnv C V) (Base : C) : List (CppType C) → Bool
  | [] => true
  | Derived :: Remaining => is_base_of_v env Base Derived && are_all_derived env Base Remaining

/-- The trait `is_one_of<Key, PossibleValues...>`: only the key is decayed. -/
def is_one_of [DecidableEq C] (Key : CppType C) : List (CppType C) → Bool
  | [] => false
  | PossibleValue :: Remaining => decide (Key.decay = PossibleValue) || is_one_of Key Remaining

/-- The trait `contains_duplicates<Types...>`. -/
def contains_duplicates [DecidableEq C] : List (CppType C) → Bool
  | [] => false
  | First :: Rest => is_one_of First Rest || contains_duplicates Rest

end detail

/-- The data members of `dynamic_ptr<Base, DerivedClasses...>`, with their
default member initialisers: `storage` is null, `stored_type_index` is `-1`. -/
structure dynamic_ptr (C V : Type) where
  storage : Option (Obj C V) := none
  stored_type_index : Int := -1
deriving DecidableEq, Repr

namespace dynamic_ptr

/-- Member `has_value()`: whether `storage` is non-null. -/
def has_value (self : dynamic_ptr C V) : Bool := self.storage.isSome

/-- Member `index()`. -/
def index (self : dynamic_ptr C V) : Int := self.stored_type_index

/-- Member `get()`: the stored pointer. -/
def get (self : dynamic_ptr C V) : Option (Obj C V) := self.storage

/-- The static assertions in the body of the class template: there are none. -/
def static_asserts (_env : ClassEnv C V) (_Base : C) (_DerivedClasses : List (CppType C)) :
    List Bool := []

/-- The constructor `dynamic_ptr(DerivedClass &&derived)`.  It takes part in
overload resolution only when `is_one_of_v<DerivedClass, DerivedClasses...>`;
`derived` is an expression of type `DerivedClass`; `std::make_unique` builds an
object of the decayed class from the forwarded argument; the `unique_ptr` of
the decayed class must convert to `unique_ptr<Base>`; the new object is built
from the `DerivedClass` subobject of `derived`. -/
def construct [DecidableEq C] (env : ClassEnv C V) (Base : C) (DerivedClasses : List (CppType C))
    (DerivedClass : CppType C) (derived : Obj C V) : Outcome (dynamic_ptr C V) :=
  if !detail.is_one_of DerivedClass DerivedClasses then Outcome.ill_formed
  else if !env.derives DerivedClass.name derived.cls then Outcome.ill_formed
  else if !constructible_from_forwarded DerivedClass then Outcome.ill_formed
  else if !env.derives Base DerivedClass.name then Outcome.ill_formed
  else
    match detail.type_index DerivedClass.decay DerivedClasses with
    | none => Outcome.ill_formed
    | some i =>
      Outcome.ok
        { storage := some ⟨DerivedClass.name, env.slice DerivedClass.name derived.cls derived.val⟩
          stored_type_index := i }

/-- Member `is_derived<DerivedClass>()`. -/
def is_derived [DecidableEq C] (DerivedClasses : List (CppType C)) (self : dynamic_ptr C V)
    (DerivedClass : CppType C) : Outcome Bool :=
  if !detail.is_one_of DerivedClass DerivedClasses then Outcome.ill_formed
  else
    match detail.type_index DerivedClass.decay DerivedClasses with
    | none => Outcome.ill_formed
    | some i => Outcome.ok (decide (self.stored_type_index = i))

/-- Member `downcast<DerivedClass>()`: `dynamic_cast<DerivedClass &>(*storage)`.
Dereferencing a null `storage` is undefined; a failed reference cast throws. -/
def downcast (env : ClassEnv C V) (Base : C) (self : dynamic_ptr C V) (DerivedClass : CppType C) :
    Outcome (Obj C V) :=
  if !is_base_of_v env Base DerivedClass then Outcome.ill_formed
  else
    match self.storage with
    | none => Outcome.undefined
    | some o => if env.derives DerivedClass.name o.cls then Outcome.ok o else Outcome.bad_cast

/-- Member `downcast_if<DerivedClass>()`: `dynamic_cast<DerivedClass *>(get())`,
null for a null pointer and for a failed cast. -/
def downcast_if (env : ClassEnv C V) (Base : C) (self : dynamic_ptr C V)
    (DerivedClass : CppType C) : Outcome (Option (Obj C V)) :=
  if !is_base_of_v env Base DerivedClass then Outcome.ill_formed
  else
    match self.get with
    | none => Outcome.ok none
    | some o => if env.derives DerivedClass.name o.cls then Outcome.ok (some o) else Outcome.ok none

/-- Member `unsafe_downcast<DerivedClass>()`: `static_cast<DerivedClass &>(*storage)`,
undefined when `storage` is null or the object is not a `DerivedClass`. -/
def unsafe_downcast (env : ClassEnv C V) (Base : C) (self : dynamic_ptr C V)
    (DerivedClass : CppType C) : Outcome (Obj C V) :=
  if !is_base_of_v env Base DerivedClass then Outcome.ill_formed
  else
    match self.storage with
    | none => Outcome.undefined
    | some o => if env.derives DerivedClass.name o.cls then Outcome.ok o else Outcome.undefined

/-- The friend `swap(first, second)`: first the two `storage` members are
exchanged, then the two `stored_type_index` members.  The result is the pair
of the new `first` and the new `second`. -/
def swap (first second : dynamic_ptr C V) : dynamic_ptr C V × dynamic_ptr C V :=
  let first1 : dynamic_ptr C V := { first with storage := second.storage }
  let second1 : dynamic_ptr C V := { second with storage := first.storage }
  ({ first1 with stored_type_index := second1.stored_type_index },
   { second1 with stored_type_index := first1.stored_type_index })

end dynamic_ptr

namespace detail

/-- The function `make_ith_copy<PolymorphicType, Current, Rest...>(original, index)`
and, for the empty list, the overload whose body is `assert(0)`.  A null
`unique_ptr` is `none`. -/
def make_ith_copy (env : ClassEnv C V) (Base : C) (original : dynamic_ptr C V) :
    List (CppType C) → Int → Outcome (Option (Obj C V))
  | [], _ => Outcome.assert_failure
  | Current :: Rest, index =>
    if decide (index ≠ -1) != original.has_value then Outcome.assert_failure
    else if !original.has_value then Outcome.ok none
    else if index = 0 then
      (original.downcast env Base Current).bind fun casted =>
        Outcome.ok (some ⟨Current.name, env.slice Current.name casted.cls casted.val⟩)
    else make_ith_copy env Base original Rest (index - 1)

/-- The number of calls of the recursive overload of `make_ith_copy` made by
`make_ith_copy<PolymorphicType, Current, Rest...>(original, index)`: one for
the call itself and, when it recurses, those of the recursive call; the
`assert(0)` overload for the empty list is not counted. -/
def make_ith_copy_steps (original : dynamic_ptr C V) : List (CppType C) → Int → Nat
  | [], _ => 0
  | _ :: Rest, index =>
    if decide (index ≠ -1) != original.has_value then 1
    else if !original.has_value then 1
    else if index = 0 then 1
    else 1 + make_ith_copy_steps original Rest (index - 1)

/-- Whether every instantiation `make_ith_copy<PolymorphicType, Current, Rest...>`
of the chain builds: each body names `original.downcast<Current>()` and
returns `std::make_unique<Current>(casted)` as a `unique_ptr<Base>`. -/
def make_ith_copy_instantiable (env : ClassEnv C V) (Base : C) : List (CppType C) → Bool
  | [] => true
  | Current :: Rest =>
    is_base_of_v env Base Current
      && unique_ptr_convertible env Base Current
      && make_ith_copy_instantiable env Base Rest

/-- Whether every instantiation `make_other_copy<In, Out, Current, Rest...>`
of the chain builds: each body names `original.downcast<Current>()` and
`OutputPolymorphicType(casted)` with `casted` of type `const Current &`, and
the destination's constructor must be enabled for that type and its body must
build. -/
def make_other_copy_instantiable [DecidableEq C] (env : ClassEnv C V) (Base OtherBase : C)
    (OtherDerivedClasses : List (CppType C)) : List (CppType C) → Bool
  | [] => true
  | Current :: Rest =>
    is_base_of_v env Base Current
      && is_one_of Current.const_lref OtherDerivedClasses
      && constructible_from_forwarded Current.const_lref
      && env.derives OtherBase Current.name
      && make_other_copy_instantiable env Base OtherBase OtherDerivedClasses Rest

/-- The function `make_other_copy<In, Out, Current, Rest...>(original, index)`
and, for the empty list, the overload whose body is `assert(0)`. -/
def make_other_copy [DecidableEq C] (env : ClassEnv C V) (Base OtherBase : C)
    (OtherDerivedClasses : List (CppType C)) (original : dynamic_ptr C V) :
    List (CppType C) → Int → Outcome (dynamic_ptr C V)
  | [], _ => Outcome.assert_failure
  | Current :: Rest, index =>
    if decide (index ≠ -1) != original.has_value then Outcome.assert_failure
    else if !original.has_value then Outcome.ok {}
    else if index = 0 then
      (original.downcast env Base Current).bind fun casted =>
        dynamic_ptr.construct env OtherBase OtherDerivedClasses Current.const_lref casted
    else make_other_copy env Base OtherBase OtherDerivedClasses original Rest (index - 1)

end detail

namespace dynamic_ptr

/-- The copy constructor `dynamic_ptr(const dynamic_ptr &to_copy)`.  It builds
when the chain `make_ith_copy<dynamic_ptr, DerivedClasses...>` does. -/
def copy (env : ClassEnv C V) (Base : C) (DerivedClasses : List (CppType C))
    (to_copy : dynamic_ptr C V) : Outcome (dynamic_ptr C V) :=
  if !detail.make_ith_copy_instantiable env Base DerivedClasses then Outcome.ill_formed
  else
    (detail.make_ith_copy env Base to_copy DerivedClasses to_copy.stored_type_index).bind
      fun s => Outcome.ok { storage := s, stored_type_index := to_copy.stored_type_index }

/-- The copy assignment `operator=(dynamic_ptr to_copy)` called with an lvalue
argument `rhs`: the parameter is copy-constructed from `rhs`, swapped with
`*this`, and destroyed; the result is the new `*this`. -/
def assign (env : ClassEnv C V) (Base : C) (DerivedClasses : List (CppType C))
    (self rhs : dynamic_ptr C V) : Outcome (dynamic_ptr C V) :=
  (copy env Base DerivedClasses rhs).bind fun to_copy => Outcome.ok (swap self to_copy).1

/-- The conversion `operator dynamic_ptr<OtherBase, OtherDerivedClasses...>()`. -/
def convert [DecidableEq C] (env : ClassEnv C V) (Base : C) (DerivedClasses : List (CppType C))
    (OtherBase : C) (OtherDerivedClasses : List (CppType C)) (self : dynamic_ptr C V) :
    Outcome (dynamic_ptr C V) :=
  if !(env.derives Base OtherBase || env.derives OtherBase Base) then Outcome.ill_formed
  else if !detail.make_other_copy_instantiable env Base OtherBase OtherDerivedClasses
      DerivedClasses then Outcome.ill_formed
  else
    detail.make_other_copy env Base OtherBase OtherDerivedClasses self DerivedClasses
      self.stored_type_index

end dynamic_ptr

/-- Whether a class template specialisation builds: every `static_assert` in
the class body holds. -/
def class_instantiable (asserts : List Bool) : Bool := asserts.all id

/-- The alternative chosen by the converting constructor of
`std::variant<std::monostate, Types...>` for an argument of type `D`, as a
position in `Types`.  Overload resolution runs over one imaginary function per
alternative: an alternative of the argument's own class (whatever its cv
qualification) is an exact match and beats a base class alternative, and two
exact matches are ambiguous; no alternative can be built from an argument of
volatile-qualified type.  It is used behind the `is_one_of` guard, so an
exact match exists. -/
def variant_converting_index [DecidableEq C] (D : CppType C) (Types : List (CppType C)) :
    Option Nat :=
  if !constructible_from_forwarded D then none
  else if (Types.map CppType.name).count D.name = 1 then
    some ((Types.map CppType.name).indexOf D.name)
  else none

/-- The data member of `static_ptr<Base, DerivedClasses...>`, a
`std::variant<std::monostate, DerivedClasses...>`: `none` is the
`std::monostate` alternative, `some (j, o)` is the alternative at position `j`
of `DerivedClasses` holding the object `o`.  Default construction gives
`std::monostate`. -/
structure static_ptr (C V : Type) where
  storage : Option (Nat × Obj C V) := none
deriving DecidableEq, Repr

namespace static_ptr

/-- The static assertions in the body of `static_ptr<Base, DerivedClasses...>`:
`are_all_derived_v<Base, DerivedClasses...>` and
`!contains_duplicates_v<DerivedClasses...>`. -/
def static_asserts [DecidableEq C] (env : ClassEnv C V) (Base : C)
    (DerivedClasses : List (CppType C)) : List Bool :=
  [detail.are_all_derived env Base DerivedClasses, !detail.contains_duplicates DerivedClasses]

/-- The defaulted constructor `static_ptr()`, available once the class builds. -/
def default_construct [DecidableEq C] (env : ClassEnv C V) (Base : C)
    (DerivedClasses : List (CppType C)) : Outcome (static_ptr C V) :=
  if !class_instantiable (static_asserts env Base DerivedClasses) then Outcome.ill_formed
  else Outcome.ok {}

/-- The constructor `static_ptr(DerivedClass &&derived)`: enabled by
`is_one_of_v<DerivedClass, DerivedClasses...>`, it initialises the variant from
the forwarded argument. -/
def construct [DecidableEq C] (env : ClassEnv C V) (Base : C) (DerivedClasses : List (CppType C))
    (DerivedClass : CppType C) (derived : Obj C V) : Outcome (static_ptr C V) :=
  if !class_instantiable (static_asserts env Base DerivedClasses) then Outcome.ill_formed
  else if !detail.is_one_of DerivedClass DerivedClasses then Outcome.ill_formed
  else if !env.derives DerivedClass.name derived.cls then Outcome.ill_formed
  else
    match variant_converting_index DerivedClass DerivedClasses with
    | none => Outcome.ill_formed
    | some j =>
      Outcome.ok
        { storage :=
            some (j, ⟨DerivedClass.name,
              env.slice DerivedClass.name derived.cls derived.val⟩) }

/-- Members `operator->()` and `get()`: the visit yields a pointer to the held
alternative, null for `std::monostate`. -/
def get (self : static_ptr C V) : Option (Obj C V) := self.storage.map Prod.snd

/-- Member `has_value()`: whether `operator->()` is non-null. -/
def has_value (self : static_ptr C V) : Bool := self.get.isSome

/-- Member `is_derived<DerivedClass>()`: `std::holds_alternative<DerivedClass>(storage)`,
which requires `DerivedClass`, as written, to occur exactly once among the
alternatives of the variant. -/
def is_derived [DecidableEq C] (DerivedClasses : List (CppType C)) (self : static_ptr C V)
    (DerivedClass : CppType C) : Outcome Bool :=
  if !detail.is_one_of DerivedClass DerivedClasses then Outcome.ill_formed
  else if DerivedClasses.count DerivedClass ≠ 1 then Outcome.ill_formed
  else
    Outcome.ok (decide (self.storage.map Prod.fst = some (DerivedClasses.indexOf DerivedClass)))

/-- Member `downcast<DerivedClass>()`: `dynamic_cast<DerivedClass &>(*get())`.
Dereferencing a null pointer is undefined; a failed reference cast throws. -/
def downcast (env : ClassEnv C V) (Base : C) (self : static_ptr C V) (DerivedClass : CppType C) :
    Outcome (Obj C V) :=
  if !is_base_of_v env Base DerivedClass then Outcome.ill_formed
  else
    match self.get with
    | none => Outcome.undefined
    | some o => if env.derives DerivedClass.name o.cls then Outcome.ok o else Outcome.bad_cast

/-- Member `downcast_if<DerivedClass>()`: `dynamic_cast<DerivedClass *>(get())`,
null for a null pointer and for a failed cast. -/
def downcast_if (env : ClassEnv C V) (Base : C) (self : static_ptr C V)
    (DerivedClass : CppType C) : Outcome (Option (Obj C V)) :=
  if !is_base_of_v env Base DerivedClass then Outcome.ill_formed
  else
    match self.get with
    | none => Outcome.ok none
    | some o => if env.derives DerivedClass.name o.cls then Outcome.ok (some o) else Outcome.ok none

end static_ptr

/-- The states of a `dynamic_ptr<Base, DerivedClasses...>` that the public
operations can produce: default construction, construction from a value, copy
construction, copy assignment, `swap` (either operand) and conversion from a
reachable container of another instantiation. -/
inductive Reachable [DecidableEq C] (env : ClassEnv C V) :
    C → List (CppType C) → dynamic_ptr C V → Prop where
  | default (Base : C) (L : List (CppType C)) : Reachable env Base L {}
  | construct (Base : C) (L : List (CppType C)) (D : CppType C) (derived : Obj C V)
      (p : dynamic_ptr C V) :
      dynamic_ptr.construct env Base L D derived = Outcome.ok p → Reachable env Base L p
  | copy (Base : C) (L : List (CppType C)) (p q : dynamic_ptr C V) :
      Reachable env Base L p → dynamic_ptr.copy env Base L p = Outcome.ok q →
      Reachable env Base L q
  | assign (Base : C) (L : List (CppType C)) (a b r : dynamic_ptr C V) :
      Reachable env Base L a → Reachable env Base L b →
      dynamic_ptr.assign env Base L a b = Outcome.ok r → Reachable env Base L r
  | swap_first (Base : C) (L : List (CppType C)) (a b : dynamic_ptr C V) :
      Reachable env Base L a → Reachable env Base L b →
      Reachable env Base L (dynamic_ptr.swap a b).1
  | swap_second (Base : C) (L : List (CppType C)) (a b : dynamic_ptr C V) :
      Reachable env Base L a → Reachable env Base L b →
      Reachable env Base L (dynamic_ptr.swap a b).2
  | convert (Base : C) (L : List (CppType C)) (OtherBase : C) (OtherL : List (CppType C))
      (p q : dynamic_ptr C V) :
      Reachable env Base L p →
      dynamic_ptr.convert env Base L OtherBase OtherL p = Outcome.ok q →
      Reachable env OtherBase OtherL q

/-- The representation invariant of `dynamic_ptr`: a null `storage` goes with
the tag `-1`; a held object goes with a tag at which the list names exactly
the object's class, and that class derives from `Base`. -/
def Consistent (env : ClassEnv C V) (Base : C) (L : List (CppType C)) (p : dynamic_ptr C V) :
    Prop :=
  match p.storage with
  | none => p.stored_type_index = -1
  | some o =>
    detail.ith p.stored_type_index L = some (CppType.plain o.cls) ∧ env.derives Base o.cls = true

/-! ## Example classes

`Shape` is the common interface; `Circle` and `Rectangle` derive from it and
`Square` derives from `Rectangle`; `Text` is unrelated to `Shape`.  Values are
natural numbers (a radius or a side). -/

/-- Class names of the example hierarchy. -/
inductive Cls where
  | Shape
  | Circle
  | Rectangle
  | Square
  | Text
deriving DecidableEq, Repr

/-- Inheritance in the example hierarchy. -/
def Cls.derives : Cls → Cls → Bool
  | Cls.Shape, Cls.Text => false
  | Cls.Shape, _ => true
  | Cls.Text, Cls.Text => true
  | Cls.Circle, Cls.Circle => true
  | Cls.Rectangle, Cls.Rectangle => true
  | Cls.Rectangle, Cls.Square => true
  | Cls.Square, Cls.Square => true
  | _, _ => false

/-- The example class environment. -/
def shapes : ClassEnv Cls Nat where
  derives := Cls.derives
  derives_refl := fun c => by cases c <;> rfl
  slice := fun _ _ v => v
  slice_self := fun _ _ => rfl

/-- The unqualified type `Circle`. -/
def Circle : CppType Cls := CppType.plain Cls.Circle

/-- The unqualified type `Square`. -/
def Square : CppType Cls := CppType.plain Cls.Square

/-- The unqualified type `Rectangle`. -/
def Rectangle : CppType Cls := CppType.plain Cls.Rectangle

/-- The type `const Circle`. -/
def ConstCircle : CppType Cls := ⟨Cls.Circle, true, false, RefKind.none⟩

/-- The type `Circle &`. -/
def CircleRef : CppType Cls := ⟨Cls.Circle, false, false, RefKind.lvalue⟩

/-- The type `volatile Circle`. -/
def VolatileCircle : CppType Cls := ⟨Cls.Circle, false, true, RefKind.none⟩

/-- The type `volatile Circle &`. -/
def VolatileCircleRef : CppType Cls := ⟨Cls.Circle, false, true, RefKind.lvalue⟩

/-- The unqualified type `Text`. -/
def Text : CppType Cls := CppType.plain Cls.Text

/-- A container over `{Circle, Square}` built from `Circle{2}`. -/
def circle2 : dynamic_ptr Cls Nat := { storage := some ⟨Cls.Circle, 2⟩, stored_type_index := 0 }


/-! ## Type-list lemmas -/

namespace detail

theorem ith_some_bounds {T : Type} :
    ∀ (L : List T) (i : Int) (t : T), ith i L = some t → 0 ≤ i ∧ i < (L.length : Int) := by
  intro L
  induction L with
  | nil => intro i t h; simp [ith] at h
  | cons x r ih =>
    intro i t h
    simp only [ith] at h
    by_cases h0 : i = 0
    · subst h0
      simp only [List.length_cons, Nat.cast_add, Nat.cast_one]
      omega
    · rw [if_neg h0] at h
      have := ih (i - 1) t h
      simp only [List.length_cons, Nat.cast_add, Nat.cast_one]
      omega

theorem type_index_nonneg {T : Type} [DecidableEq T] (Key : T) :
    ∀ (L : List T) (i : Int), type_index Key L = some i → 0 ≤ i := by
  intro L
  induction L with
  | nil => intro i h; simp [type_index] at h
  | cons x r ih =>
    intro i h
    simp only [type_index] at h
    by_cases hk : Key = x
    · rw [if_pos hk] at h
      cases h
      exact le_refl 0
    · rw [if_neg hk] at h
      cases hr : type_index Key r with
      | none => rw [hr] at h; simp at h
      | some j =>
        rw [hr] at h
        simp only [Option.map_some', Option.some.injEq] at h
        have := ih j hr
        omega

theorem type_index_ith {T : Type} [DecidableEq T] (Key : T) :
    ∀ (L : List T) (i : Int), type_index Key L = some i → ith i L = some Key := by
  intro L
  induction L with
  | nil => intro i h; simp [type_index] at h
  | cons x r ih =>
    intro i h
    simp only [type_index] at h
    by_cases hk : Key = x
    · rw [if_pos hk] at h
      cases h
      simp [ith, hk]
    · rw [if_neg hk] at h
      cases hr : type_index Key r with
      | none => rw [hr] at h; simp at h
      | some j =>
        rw [hr] at h
        simp only [Option.map_some', Option.some.injEq] at h
        have hj := type_index_nonneg Key r j hr
        have hne : ¬ i = 0 := by omega
        simp only [ith]
        rw [if_neg hne]
        have : i - 1 = j := by omega
        rw [this]
        exact ih j hr

theorem type_index_eq_indexOf {T : Type} [DecidableEq T] (Key : T) :
    ∀ (L : List T), Key ∈ L → type_index Key L = some ((L.indexOf Key : Nat) : Int) := by
  intro L
  induction L with
  | nil => intro h; simp at h
  | cons x r ih =>
    intro h
    simp only [type_index]
    by_cases hk : Key = x
    · subst hk
      simp
    · rw [if_neg hk]
      have hr : Key ∈ r := by
        rcases List.mem_cons.mp h with h1 | h1
        · exact absurd h1 hk
        · exact h1
      rw [ih hr, List.indexOf_cons_ne _ (fun e => hk e.symm)]
      simp only [Option.map_some', Option.some.injEq, Nat.succ_eq_add_one, Nat.cast_add,
        Nat.cast_one]
      omega

theorem is_one_of_iff [DecidableEq C] (Key : CppType C) :
    ∀ (L : List (CppType C)), is_one_of Key L = true ↔ Key.decay ∈ L := by
  intro L
  induction L with
  | nil => simp [is_one_of]
  | cons x r ih =>
    simp only [is_one_of, Bool.or_eq_true, decide_eq_true_eq, ih, List.mem_cons]

theorem are_all_derived_mem (env : ClassEnv C V) (Base : C) :
    ∀ (L : List (CppType C)), are_all_derived env Base L = true →
      ∀ D, D ∈ L → is_base_of_v env Base D = true := by
  intro L
  induction L with
  | nil => intro _ D h; simp at h
  | cons x r ih =>
    intro h D hD
    simp only [are_all_derived, Bool.and_eq_true] at h
    rcases List.mem_cons.mp hD with h1 | h1
    · rw [h1]; exact h.1
    · exact ih h.2 D h1

end detail


/-! ## The two tag-dispatch scans -/

namespace detail

theorem make_ith_copy_hit (env : ClassEnv C V) (Base : C) (p : dynamic_ptr C V) (o : Obj C V)
    (hs : p.storage = some o) :
    ∀ (L : List (CppType C)) (idx : Int), make_ith_copy_instantiable env Base L = true →
      ith idx L = some (CppType.plain o.cls) →
      make_ith_copy env Base p L idx = Outcome.ok (some ⟨o.cls, o.val⟩) := by
  intro L
  induction L with
  | nil => intro idx _ h; simp [ith] at h
  | cons x r ih =>
    intro idx hall hith
    have hb := ith_some_bounds _ _ _ hith
    have hv : p.has_value = true := by simp [dynamic_ptr.has_value, hs]
    have hne : idx ≠ -1 := by omega
    simp only [make_ith_copy_instantiable, Bool.and_eq_true] at hall
    simp only [ith] at hith
    simp only [make_ith_copy, hv, hne, ne_eq, not_false_eq_true, decide_True, bne_self_eq_false,
      Bool.false_eq_true, if_false, Bool.not_true]
    by_cases h0 : idx = 0
    · rw [if_pos h0] at hith
      rw [if_pos h0]
      have hx : x = CppType.plain o.cls := Option.some.inj hith
      subst hx
      have hbase := hall.1.1
      have hnm : (CppType.plain o.cls).name = o.cls := rfl
      simp only [dynamic_ptr.downcast, hbase, hs, hnm, env.derives_refl,
        Bool.not_true, Bool.false_eq_true, if_false, if_true, Outcome.bind, env.slice_self]
    · rw [if_neg h0] at hith
      rw [if_neg h0]
      exact ih (idx - 1) hall.2 hith

theorem make_ith_copy_empty (env : ClassEnv C V) (Base : C) (p : dynamic_ptr C V)
    (hs : p.storage = none) (x : CppType C) (r : List (CppType C)) :
    make_ith_copy env Base p (x :: r) (-1) = Outcome.ok none := by
  have hv : p.has_value = false := by simp [dynamic_ptr.has_value, hs]
  simp [make_ith_copy, hv]

theorem make_other_copy_hit [DecidableEq C] (env : ClassEnv C V) (Base OtherBase : C)
    (OtherL : List (CppType C)) (p : dynamic_ptr C V) (o : Obj C V) (hs : p.storage = some o) :
    ∀ (L : List (CppType C)) (idx : Int),
      make_other_copy_instantiable env Base OtherBase OtherL L = true →
      ith idx L = some (CppType.plain o.cls) →
      ∃ i, type_index (CppType.plain o.cls) OtherL = some i ∧
        env.derives OtherBase o.cls = true ∧
        make_other_copy env Base OtherBase OtherL p L idx
          = Outcome.ok { storage := some ⟨o.cls, o.val⟩, stored_type_index := i } := by
  intro L
  induction L with
  | nil => intro idx _ h; simp [ith] at h
  | cons x r ih =>
    intro idx hall hith
    have hb := ith_some_bounds _ _ _ hith
    have hv : p.has_value = true := by simp [dynamic_ptr.has_value, hs]
    have hne : idx ≠ -1 := by omega
    simp only [make_other_copy_instantiable, Bool.and_eq_true] at hall
    simp only [ith] at hith
    simp only [make_other_copy, hv, hne, ne_eq, not_false_eq_true, decide_True, bne_self_eq_false,
      Bool.false_eq_true, if_false, Bool.not_true]
    by_cases h0 : idx = 0
    · rw [if_pos h0] at hith
      rw [if_pos h0]
      have hx : x = CppType.plain o.cls := Option.some.inj hith
      subst hx
      obtain ⟨⟨⟨⟨hbase, hone⟩, _⟩, hob⟩, _⟩ := hall
      replace hob : env.derives OtherBase o.cls = true := hob
      have hcf : constructible_from_forwarded (CppType.plain o.cls).const_lref = true := rfl
      have hmem : CppType.plain o.cls ∈ OtherL := (is_one_of_iff _ _).mp hone
      have hti := type_index_eq_indexOf (CppType.plain o.cls) OtherL hmem
      refine ⟨_, hti, hob, ?_⟩
      have hdec : (CppType.plain o.cls).const_lref.decay = CppType.plain o.cls := rfl
      have hname : (CppType.plain o.cls).const_lref.name = o.cls := rfl
      simp only [dynamic_ptr.downcast, hbase, hs, Outcome.bind, dynamic_ptr.construct, hone, hdec,
        hname, hti, hcf, env.derives_refl, env.slice_self, Bool.not_true, Bool.false_eq_true,
        if_false, if_true]
      have hnm : (CppType.plain o.cls).name = o.cls := rfl
      simp only [hnm, env.derives_refl, if_true, hob, Bool.not_true, Bool.false_eq_true, if_false,
        env.slice_self]
    · rw [if_neg h0] at hith
      rw [if_neg h0]
      exact ih (idx - 1) hall.2 hith

theorem make_other_copy_empty [DecidableEq C] (env : ClassEnv C V) (Base OtherBase : C)
    (OtherL : List (CppType C)) (p : dynamic_ptr C V) (hs : p.storage = none) (x : CppType C)
    (r : List (CppType C)) :
    make_other_copy env Base OtherBase OtherL p (x :: r) (-1) = Outcome.ok {} := by
  have hv : p.has_value = false := by simp [dynamic_ptr.has_value, hs]
  simp [make_other_copy, hv]

end detail


/-! ## The representation invariant is preserved -/

namespace dynamic_ptr

theorem swap_fst (a b : dynamic_ptr C V) : (swap a b).1 = b := rfl

theorem swap_snd (a b : dynamic_ptr C V) : (swap a b).2 = a := rfl

theorem consistent_none (env : ClassEnv C V) (Base : C) (L : List (CppType C))
    (p : dynamic_ptr C V) (hs : p.storage = none) :
    Consistent env Base L p ↔ p.stored_type_index = -1 := by
  simp only [Consistent, hs]

theorem consistent_some (env : ClassEnv C V) (Base : C) (L : List (CppType C))
    (p : dynamic_ptr C V) (o : Obj C V) (hs : p.storage = some o) :
    Consistent env Base L p ↔
      (detail.ith p.stored_type_index L = some (CppType.plain o.cls) ∧
        env.derives Base o.cls = true) := by
  simp only [Consistent, hs]

theorem construct_ok [DecidableEq C] (env : ClassEnv C V) (Base : C) (L : List (CppType C))
    (D : CppType C) (derived : Obj C V) (p : dynamic_ptr C V)
    (h : construct env Base L D derived = Outcome.ok p) :
    detail.is_one_of D L = true ∧ env.derives D.name derived.cls = true ∧
      env.derives Base D.name = true ∧
      detail.type_index D.decay L = some p.stored_type_index ∧
      p.storage = some ⟨D.name, env.slice D.name derived.cls derived.val⟩ := by
  unfold construct at h
  by_cases h1 : detail.is_one_of D L = true
  · by_cases h2 : env.derives D.name derived.cls = true
    · by_cases hcf : constructible_from_forwarded D = true
      · by_cases h3 : env.derives Base D.name = true
        · simp only [h1, h2, h3, hcf, Bool.not_true, Bool.false_eq_true, if_false] at h
          cases hti : detail.type_index D.decay L with
          | none => rw [hti] at h; simp at h
          | some i =>
            rw [hti] at h
            simp only [Outcome.ok.injEq] at h
            subst h
            exact ⟨h1, h2, h3, rfl, rfl⟩
        · simp [h1, h2, h3, hcf] at h
      · simp [h1, h2, hcf] at h
    · simp [h1, h2] at h
  · simp [h1] at h

theorem consistent_construct [DecidableEq C] (env : ClassEnv C V) (Base : C)
    (L : List (CppType C)) (D : CppType C) (derived : Obj C V) (p : dynamic_ptr C V)
    (h : construct env Base L D derived = Outcome.ok p) : Consistent env Base L p := by
  obtain ⟨_, _, h3, h4, h5⟩ := construct_ok env Base L D derived p h
  rw [consistent_some env Base L p _ h5]
  exact ⟨detail.type_index_ith _ _ _ h4, h3⟩

theorem copy_of_consistent (env : ClassEnv C V) (Base : C) (L : List (CppType C))
    (p : dynamic_ptr C V) (hc : Consistent env Base L p)
    (hall : detail.make_ith_copy_instantiable env Base L = true) (hne : L ≠ []) :
    copy env Base L p = Outcome.ok p := by
  cases hs : p.storage with
  | none =>
    have hi := (consistent_none env Base L p hs).mp hc
    cases L with
    | nil => exact absurd rfl hne
    | cons x r =>
      simp only [copy, hall, hi, detail.make_ith_copy_empty env Base p hs, Outcome.bind,
        Bool.not_true, Bool.false_eq_true, if_false]
      congr 1
      cases p
      simp_all
  | some o =>
    have hi := (consistent_some env Base L p o hs).mp hc
    simp only [copy, hall, detail.make_ith_copy_hit env Base p o hs L _ hall hi.1, Outcome.bind,
      Bool.not_true, Bool.false_eq_true, if_false]
    congr 1
    cases p
    simp_all

theorem copy_ok_eq (env : ClassEnv C V) (Base : C) (L : List (CppType C))
    (p q : dynamic_ptr C V) (hc : Consistent env Base L p)
    (h : copy env Base L p = Outcome.ok q) : q = p := by
  by_cases hall : detail.make_ith_copy_instantiable env Base L = true
  · by_cases hne : L = []
    · subst hne
      simp [copy, hall, detail.make_ith_copy, Outcome.bind] at h
    · rw [copy_of_consistent env Base L p hc hall hne] at h
      exact (Outcome.ok.inj h).symm
  · simp [copy, hall] at h

theorem assign_ok_eq (env : ClassEnv C V) (Base : C) (L : List (CppType C))
    (a b r : dynamic_ptr C V) (hc : Consistent env Base L b)
    (h : assign env Base L a b = Outcome.ok r) : r = b := by
  unfold assign at h
  cases hcp : copy env Base L b with
  | ok t =>
    rw [hcp] at h
    simp only [Outcome.bind, swap_fst, Outcome.ok.injEq] at h
    rw [← h]
    exact copy_ok_eq env Base L b t hc hcp
  | bad_cast => rw [hcp] at h; simp [Outcome.bind] at h
  | assert_failure => rw [hcp] at h; simp [Outcome.bind] at h
  | undefined => rw [hcp] at h; simp [Outcome.bind] at h
  | ill_formed => rw [hcp] at h; simp [Outcome.bind] at h

theorem convert_of_consistent [DecidableEq C] (env : ClassEnv C V) (Base : C)
    (L : List (CppType C)) (OtherBase : C) (OtherL : List (CppType C)) (p : dynamic_ptr C V)
    (o : Obj C V) (hs : p.storage = some o) (hc : Consistent env Base L p)
    (hrel : (env.derives Base OtherBase || env.derives OtherBase Base) = true)
    (hinst : detail.make_other_copy_instantiable env Base OtherBase OtherL L = true) :
    ∃ i, detail.type_index (CppType.plain o.cls) OtherL = some i ∧
      env.derives OtherBase o.cls = true ∧
      convert env Base L OtherBase OtherL p
        = Outcome.ok { storage := some ⟨o.cls, o.val⟩, stored_type_index := i } := by
  have hi := (consistent_some env Base L p o hs).mp hc
  obtain ⟨i, h1, h2, h3⟩ :=
    detail.make_other_copy_hit env Base OtherBase OtherL p o hs L _ hinst hi.1
  refine ⟨i, h1, h2, ?_⟩
  simp only [convert, hrel, hinst, h3, Bool.not_true, Bool.false_eq_true, if_false]

theorem consistent_convert [DecidableEq C] (env : ClassEnv C V) (Base : C)
    (L : List (CppType C)) (OtherBase : C) (OtherL : List (CppType C)) (p q : dynamic_ptr C V)
    (hc : Consistent env Base L p)
    (h : convert env Base L OtherBase OtherL p = Outcome.ok q) :
    Consistent env OtherBase OtherL q := by
  by_cases hrel : (env.derives Base OtherBase || env.derives OtherBase Base) = true
  · by_cases hinst : detail.make_other_copy_instantiable env Base OtherBase OtherL L = true
    · cases hs : p.storage with
      | none =>
        have hi := (consistent_none env Base L p hs).mp hc
        cases L with
        | nil => simp [convert, hrel, hinst, detail.make_other_copy] at h
        | cons x r =>
          simp only [convert, hrel, hinst, hi, Bool.not_true, Bool.false_eq_true, if_false,
            detail.make_other_copy_empty env Base OtherBase OtherL p hs, Outcome.ok.injEq] at h
          subst h
          exact (consistent_none env OtherBase OtherL _ rfl).mpr rfl
      | some o =>
        obtain ⟨i, h1, h2, h3⟩ :=
          convert_of_consistent env Base L OtherBase OtherL p o hs hc hrel hinst
        rw [h3] at h
        have hq := (Outcome.ok.inj h).symm
        subst hq
        exact (consistent_some env OtherBase OtherL _ _ rfl).mpr
          ⟨detail.type_index_ith _ _ _ h1, h2⟩
    · simp [convert, hrel, hinst] at h
  · simp [convert, hrel] at h

end dynamic_ptr

theorem Reachable.consistent [DecidableEq C] (env : ClassEnv C V) (Base : C)
    (L : List (CppType C)) (p : dynamic_ptr C V) (h : Reachable env Base L p) :
    Consistent env Base L p := by
  induction h with
  | default Base L => exact (dynamic_ptr.consistent_none env Base L _ rfl).mpr rfl
  | construct Base L D derived p hp => exact dynamic_ptr.consistent_construct env Base L D derived p hp
  | copy Base L p q _ hq ih =>
    rw [dynamic_ptr.copy_ok_eq env Base L p q ih hq]
    exact ih
  | assign Base L a b r _ _ hr _ ihb =>
    rw [dynamic_ptr.assign_ok_eq env Base L a b r ihb hr]
    exact ihb
  | swap_first Base L a b _ _ _ ihb => rw [dynamic_ptr.swap_fst]; exact ihb
  | swap_second Base L a b _ _ iha _ => rw [dynamic_ptr.swap_snd]; exact iha
  | convert Base L OtherBase OtherL p q _ hq ih =>
    exact dynamic_ptr.consistent_convert env Base L OtherBase OtherL p q ih hq


theorem dynamic_ptr.is_derived_ok [DecidableEq C] (L : List (CppType C)) (p : dynamic_ptr C V)
    (T : CppType C) (b : Bool) (h : dynamic_ptr.is_derived L p T = Outcome.ok b) :
    ∃ i, detail.type_index T.decay L = some i ∧ b = decide (p.stored_type_index = i) := by
  unfold dynamic_ptr.is_derived at h
  by_cases h1 : detail.is_one_of T L = true
  · simp only [h1, Bool.not_true, Bool.false_eq_true, if_false] at h
    cases hx : detail.type_index T.decay L with
    | none => rw [hx] at h; simp at h
    | some i =>
      rw [hx] at h
      exact ⟨i, rfl, (Outcome.ok.inj h).symm⟩
  · simp [h1] at h

theorem reachable_circle2 : Reachable shapes Cls.Shape [Circle, Square] circle2 :=
  Reachable.construct Cls.Shape [Circle, Square] Circle ⟨Cls.Circle, 2⟩ circle2 (by decide)

theorem reachable_empty : Reachable shapes Cls.Shape [Circle, Square] {} :=
  Reachable.default Cls.Shape [Circle, Square]

/-- Claim C2. In every reachable state of a `dynamic_ptr` over a list of `N`
alternatives the tag is `-1` or lies in `[0, N)`, and whenever the tag is not
`-1` a value is held whose dynamic type is exactly the alternative at position
`tag` of the list (`ith` of the tag). -/
theorem tag_identifies_dynamic_type [DecidableEq C] (env : ClassEnv C V) (Base : C)
    (L : List (CppType C)) (p : dynamic_ptr C V) (h : Reachable env Base L p) :
    (p.index = -1 ∨ (0 ≤ p.index ∧ p.index < (L.length : Int))) ∧
      (p.index ≠ -1 →
        ∃ o, p.storage = some o ∧ detail.ith p.index L = some (CppType.plain o.cls)) := by
  have hc := Reachable.consistent env Base L p h
  cases hs : p.storage with
  | none =>
    have hi := (dynamic_ptr.consistent_none env Base L p hs).mp hc
    exact ⟨Or.inl hi, fun hne => absurd hi hne⟩
  | some o =>
    have hi := (dynamic_ptr.consistent_some env Base L p o hs).mp hc
    exact ⟨Or.inr (detail.ith_some_bounds _ _ _ hi.1), fun _ => ⟨o, rfl, hi.1⟩⟩

theorem tag_identifies_dynamic_type_witness :
    Reachable shapes Cls.Shape [Circle, Square] circle2 ∧
      ((circle2.index = -1 ∨ (0 ≤ circle2.index ∧ circle2.index < (2 : Int))) ∧
        (circle2.index ≠ -1 →
          ∃ o, circle2.storage = some o ∧
            detail.ith circle2.index [Circle, Square] = some (CppType.plain o.cls))) :=
  ⟨reachable_circle2, tag_identifies_dynamic_type shapes Cls.Shape [Circle, Square] circle2
    reachable_circle2⟩


/-! ## Owning container: construction, copy and downcasts -/

theorem construct_of_plain_member [DecidableEq C] (env : ClassEnv C V) (Base : C)
    (L : List (CppType C)) (T D : CppType C) (v : V) (hT : T ∈ L)
    (hbase : is_base_of_v env Base T = true) (hD : D.decay = T) (hvol : D.is_volatile = false) :
    dynamic_ptr.construct env Base L D ⟨T.name, v⟩
      = Outcome.ok
          { storage := some ⟨T.name, v⟩
            stored_type_index := ((L.indexOf T : Nat) : Int) } := by
  have hname : D.name = T.name := by rw [← hD]; rfl
  have hone : detail.is_one_of D L = true := (detail.is_one_of_iff D L).mpr (by rw [hD]; exact hT)
  have hti := detail.type_index_eq_indexOf T L hT
  have hder : env.derives Base T.name = true := by
    simp only [is_base_of_v, Bool.and_eq_true] at hbase
    exact hbase.2
  simp only [dynamic_ptr.construct, constructible_from_forwarded, hvol, hone, hname, hD, hti,
    hder, env.derives_refl, env.slice_self, Bool.not_true, Bool.not_false, Bool.false_eq_true,
    if_false]

theorem downcast_of_held (env : ClassEnv C V) (Base : C) (T : CppType C) (v : V) (i : Int)
    (hbase : is_base_of_v env Base T = true) :
    dynamic_ptr.downcast env Base { storage := some ⟨T.name, v⟩, stored_type_index := i } T
      = Outcome.ok ⟨T.name, v⟩ := by
  simp only [dynamic_ptr.downcast, hbase, env.derives_refl, Bool.not_true, Bool.false_eq_true,
    if_false, if_true]

/-- Claim C3, as stated, fails for a cv-qualified alternative: over the list
`{const Circle, Square}`, which is duplicate free and all of whose members
derive from `Shape`, the constructor from a value of type `const Circle` is
disabled, whether the argument is an rvalue or an lvalue.  (Over
`{Circle, Square}` an argument expression of type `volatile Circle &` passes
the guard, but `std::make_unique<Circle>` cannot copy from it.) -/
theorem construct_const_alternative_rejected :
    ConstCircle ∈ [ConstCircle, Square] ∧
      detail.are_all_derived shapes Cls.Shape [ConstCircle, Square] = true ∧
      detail.contains_duplicates [ConstCircle, Square] = false ∧
      dynamic_ptr.construct shapes Cls.Shape [ConstCircle, Square] ConstCircle ⟨Cls.Circle, 2⟩
        = Outcome.ill_formed ∧
      dynamic_ptr.construct shapes Cls.Shape [ConstCircle, Square] ConstCircle.const_lref
        ⟨Cls.Circle, 2⟩ = Outcome.ill_formed ∧
      dynamic_ptr.construct shapes Cls.Shape [Circle, Square] VolatileCircleRef ⟨Cls.Circle, 2⟩
        = Outcome.ill_formed := by
  decide

/-- Claim C3, amended. For every list `L`, every member `T` of `L` that is an
unqualified class type derived from `Base`, and every value `v` of `T`, the
container built from `v` (whatever the value category and constness of the
argument expression: the deduced `D` decays to `T` and is not
volatile-qualified) has `has_value()` true, `index()` equal to the zero-based
position of `T` in `L`, `is_derived<T>()` true, and `downcast<T>()` returns the
`T` object of value `v`. -/
theorem construct_from_value [DecidableEq C] (env : ClassEnv C V) (Base : C)
    (L : List (CppType C)) (T D : CppType C) (v : V) (hT : T ∈ L) (hplain : T.decay = T)
    (hbase : is_base_of_v env Base T = true) (hD : D.decay = T)
    (hvol : D.is_volatile = false) :
    ∃ p, dynamic_ptr.construct env Base L D ⟨T.name, v⟩ = Outcome.ok p ∧
      p.has_value = true ∧ p.index = ((L.indexOf T : Nat) : Int) ∧
      dynamic_ptr.is_derived L p T = Outcome.ok true ∧
      dynamic_ptr.downcast env Base p T = Outcome.ok ⟨T.name, v⟩ := by
  have honeT : detail.is_one_of T L = true :=
    (detail.is_one_of_iff T L).mpr (by rw [hplain]; exact hT)
  have hti := detail.type_index_eq_indexOf T L hT
  refine ⟨{ storage := some ⟨T.name, v⟩, stored_type_index := ((L.indexOf T : Nat) : Int) },
    construct_of_plain_member env Base L T D v hT hbase hD hvol, rfl, rfl, ?_,
    downcast_of_held env Base T v _ hbase⟩
  simp only [dynamic_ptr.is_derived, honeT, hplain, hti, decide_True, Bool.not_true,
    Bool.false_eq_true, if_false]

theorem construct_from_value_witness :
    Circle ∈ [Circle, Square] ∧ Circle.decay = Circle ∧
      is_base_of_v shapes Cls.Shape Circle = true ∧ Circle.const_lref.decay = Circle ∧
      Circle.const_lref.is_volatile = false ∧
      ∃ p, dynamic_ptr.construct shapes Cls.Shape [Circle, Square] Circle.const_lref
          ⟨Circle.name, 2⟩ = Outcome.ok p ∧
        p.has_value = true ∧ p.index = (([Circle, Square].indexOf Circle : Nat) : Int) ∧
        dynamic_ptr.is_derived [Circle, Square] p Circle = Outcome.ok true ∧
        dynamic_ptr.downcast shapes Cls.Shape p Circle = Outcome.ok ⟨Circle.name, 2⟩ :=
  ⟨by decide, by decide, by decide, by decide, by decide,
   construct_from_value shapes Cls.Shape [Circle, Square] Circle Circle.const_lref 2
     (by decide) (by decide) (by decide) (by decide) (by decide)⟩

/-- Claim C6, as stated, fails for a listed reference type: over the list
`{Circle, Circle &}` the container built from `Circle{2}` is reachable and
`is_derived<Circle &>()` is true (its guard and its comparison decay the
type), yet none of `downcast<Circle &>()`, `downcast_if<Circle &>()` and
`unsafe_downcast<Circle &>()` builds, their guard `is_base_of_v` being false
for a reference type. -/
theorem downcast_of_listed_reference_rejected :
    Reachable shapes Cls.Shape [Circle, CircleRef] circle2 ∧
      CircleRef ∈ [Circle, CircleRef] ∧
      dynamic_ptr.is_derived [Circle, CircleRef] circle2 CircleRef = Outcome.ok true ∧
      dynamic_ptr.downcast shapes Cls.Shape circle2 CircleRef = Outcome.ill_formed ∧
      dynamic_ptr.downcast_if shapes Cls.Shape circle2 CircleRef = Outcome.ill_formed ∧
      dynamic_ptr.unsafe_downcast shapes Cls.Shape circle2 CircleRef = Outcome.ill_formed :=
  ⟨Reachable.construct Cls.Shape [Circle, CircleRef] Circle ⟨Cls.Circle, 2⟩ circle2 (by decide),
   by decide, by decide, by decide, by decide, by decide⟩

/-- Claim C6, amended. For every reachable `dynamic_ptr` state and every type
`T` that is not a reference type (in particular every such listed type), when
`is_derived<T>()` is true a value is held, `downcast<T>()` succeeds,
`downcast_if<T>()` is non-empty, and `downcast<T>()`, `unsafe_downcast<T>()`
and `downcast_if<T>()` all yield that same held object. -/
theorem downcasts_agree_on_match [DecidableEq C] (env : ClassEnv C V) (Base : C)
    (L : List (CppType C)) (p : dynamic_ptr C V) (T : CppType C) (h : Reachable env Base L p)
    (href : T.ref = RefKind.none)
    (hd : dynamic_ptr.is_derived L p T = Outcome.ok true) :
    ∃ o, p.storage = some o ∧
      dynamic_ptr.downcast env Base p T = Outcome.ok o ∧
      dynamic_ptr.downcast_if env Base p T = Outcome.ok (some o) ∧
      dynamic_ptr.unsafe_downcast env Base p T = Outcome.ok o := by
  have hc := Reachable.consistent env Base L p h
  obtain ⟨i, hti0, hdec⟩ := dynamic_ptr.is_derived_ok L p T true hd
  have hti : detail.type_index T.decay L = some p.stored_type_index := by
    have : p.stored_type_index = i := by simpa using hdec.symm
    rw [this]
    exact hti0
  have hith := detail.type_index_ith _ _ _ hti
  cases hs : p.storage with
  | none =>
    have hi := (dynamic_ptr.consistent_none env Base L p hs).mp hc
    have := detail.type_index_nonneg _ _ _ hti
    omega
  | some o =>
    have hi := (dynamic_ptr.consistent_some env Base L p o hs).mp hc
    have heq : T.decay = CppType.plain o.cls := by
      have := hith.symm.trans hi.1
      exact Option.some.inj this
    have hname : T.name = o.cls := congrArg CppType.name heq
    have hbase : is_base_of_v env Base T = true := by
      simp only [is_base_of_v, href, hname, hi.2, decide_True, Bool.and_self]
    refine ⟨o, rfl, ?_, ?_, ?_⟩
    · simp [dynamic_ptr.downcast, hbase, hs, hname, env.derives_refl]
    · simp [dynamic_ptr.downcast_if, dynamic_ptr.get, hbase, hs, hname, env.derives_refl]
    · simp [dynamic_ptr.unsafe_downcast, hbase, hs, hname, env.derives_refl]

theorem downcasts_agree_on_match_witness :
    Reachable shapes Cls.Shape [Circle, Square] circle2 ∧
      Circle.ref = RefKind.none ∧
      dynamic_ptr.is_derived [Circle, Square] circle2 Circle = Outcome.ok true ∧
      ∃ o, circle2.storage = some o ∧
        dynamic_ptr.downcast shapes Cls.Shape circle2 Circle = Outcome.ok o ∧
        dynamic_ptr.downcast_if shapes Cls.Shape circle2 Circle = Outcome.ok (some o) ∧
        dynamic_ptr.unsafe_downcast shapes Cls.Shape circle2 Circle = Outcome.ok o :=
  ⟨reachable_circle2, by decide, by decide,
   downcasts_agree_on_match shapes Cls.Shape [Circle, Square] circle2 Circle reachable_circle2
     (by decide) (by decide)⟩

/-! ## Owning container: conversion -/

namespace detail

theorem ith_mem {T : Type} :
    ∀ (L : List T) (i : Int) (t : T), ith i L = some t → t ∈ L := by
  intro L
  induction L with
  | nil => intro i t h; simp [ith] at h
  | cons x r ih =>
    intro i t h
    simp only [ith] at h
    by_cases h0 : i = 0
    · rw [if_pos h0] at h
      exact List.mem_cons.mpr (Or.inl (Option.some.inj h).symm)
    · rw [if_neg h0] at h
      exact List.mem_cons_of_mem _ (ih (i - 1) t h)

theorem type_index_mem {T : Type} [DecidableEq T] (Key : T) (L : List T) (i : Int)
    (h : type_index Key L = some i) : Key ∈ L :=
  ith_mem L i Key (type_index_ith Key L i h)

theorem make_other_copy_instantiable_iff [DecidableEq C] (env : ClassEnv C V)
    (Base OtherBase : C) (OtherL : List (CppType C)) :
    ∀ (L : List (CppType C)),
      make_other_copy_instantiable env Base OtherBase OtherL L = true ↔
        ∀ U, U ∈ L →
          is_base_of_v env Base U = true ∧ U.decay ∈ OtherL ∧ U.is_volatile = false ∧
            env.derives OtherBase U.name = true := by
  intro L
  induction L with
  | nil => simp [make_other_copy_instantiable]
  | cons x r ih =>
    have hdec : x.const_lref.decay = x.decay := rfl
    have hcf : constructible_from_forwarded x.const_lref = !x.is_volatile := rfl
    simp only [make_other_copy_instantiable, Bool.and_eq_true, ih, is_one_of_iff, hdec, hcf,
      Bool.not_eq_true', List.mem_cons, forall_eq_or_imp, and_assoc]

end detail

/-- Claim C7, as stated, fails when the source list has another alternative
that the destination list lacks: the source over `{Circle, Square}` holds
`Circle{2}`, the destination list `{Circle}` contains `Circle`, and the
conversion does not build.  It does not build either from the source list
`{Circle, volatile Circle}`, whose chain has to copy a `Circle` from a
`const volatile Circle &`. -/
theorem convert_needs_whole_list :
    Reachable shapes Cls.Shape [Circle, Square] circle2 ∧
      circle2.storage = some ⟨Cls.Circle, 2⟩ ∧ Circle ∈ [Circle] ∧
      dynamic_ptr.convert shapes Cls.Shape [Circle, Square] Cls.Shape [Circle] circle2
        = Outcome.ill_formed ∧
      Reachable shapes Cls.Shape [Circle, VolatileCircle] circle2 ∧
      dynamic_ptr.convert shapes Cls.Shape [Circle, VolatileCircle] Cls.Shape [Circle] circle2
        = Outcome.ill_formed :=
  ⟨reachable_circle2, rfl, by decide, by decide,
   Reachable.construct Cls.Shape [Circle, VolatileCircle] Circle ⟨Cls.Circle, 2⟩ circle2
     (by decide),
   by decide⟩

/-- Claim C7, amended. For every reachable source `dynamic_ptr` over
`(Base, L)` holding an object of class `T` and value `v`, and every
destination `(OtherBase, OtherL)` such that the two bases are related by
inheritance and every alternative of `L` (not only `T`) is-a `Base`, is-a
`OtherBase`, is not volatile-qualified and occurs, with its qualifiers
removed, in `OtherL`: the conversion returns a
container that has a value, holds an object of class `T` and value `v`, and
whose tag is the zero-based position of `T` in `OtherL`; the source, accessed
through a `const` member, is not modified. -/
theorem convert_identity [DecidableEq C] (env : ClassEnv C V) (Base : C) (L : List (CppType C))
    (OtherBase : C) (OtherL : List (CppType C)) (p : dynamic_ptr C V) (o : Obj C V)
    (h : Reachable env Base L p) (hs : p.storage = some o)
    (hrel : env.derives Base OtherBase = true ∨ env.derives OtherBase Base = true)
    (hcover : ∀ U, U ∈ L →
      is_base_of_v env Base U = true ∧ U.decay ∈ OtherL ∧ U.is_volatile = false ∧
        env.derives OtherBase U.name = true) :
    ∃ q, dynamic_ptr.convert env Base L OtherBase OtherL p = Outcome.ok q ∧
      q.has_value = true ∧ q.storage = some ⟨o.cls, o.val⟩ ∧
      q.index = ((OtherL.indexOf (CppType.plain o.cls) : Nat) : Int) := by
  have hc := Reachable.consistent env Base L p h
  have hinst := (detail.make_other_copy_instantiable_iff env Base OtherBase OtherL L).mpr hcover
  have hrel2 : (env.derives Base OtherBase || env.derives OtherBase Base) = true := by
    simpa [Bool.or_eq_true] using hrel
  obtain ⟨i, h1, _, h3⟩ :=
    dynamic_ptr.convert_of_consistent env Base L OtherBase OtherL p o hs hc hrel2 hinst
  have hmem : CppType.plain o.cls ∈ OtherL := detail.type_index_mem _ _ _ h1
  rw [detail.type_index_eq_indexOf _ _ hmem] at h1
  refine ⟨_, h3, rfl, rfl, ?_⟩
  exact (Option.some.inj h1).symm


theorem convert_identity_witness :
    Reachable shapes Cls.Shape [Circle, Square] circle2 ∧
      circle2.storage = some ⟨Cls.Circle, 2⟩ ∧
      (shapes.derives Cls.Shape Cls.Shape = true ∨ shapes.derives Cls.Shape Cls.Shape = true) ∧
      (∀ U, U ∈ [Circle, Square] →
        is_base_of_v shapes Cls.Shape U = true ∧ U.decay ∈ [Square, Rectangle, Circle] ∧
          U.is_volatile = false ∧ shapes.derives Cls.Shape U.name = true) ∧
      ∃ q, dynamic_ptr.convert shapes Cls.Shape [Circle, Square] Cls.Shape
          [Square, Rectangle, Circle] circle2 = Outcome.ok q ∧
        q.has_value = true ∧ q.storage = some ⟨Cls.Circle, 2⟩ ∧
        q.index = (([Square, Rectangle, Circle].indexOf (CppType.plain Cls.Circle) : Nat) : Int) :=
  ⟨reachable_circle2, rfl, Or.inl (by decide), by decide,
   convert_identity shapes Cls.Shape [Circle, Square] Cls.Shape [Square, Rectangle, Circle]
     circle2 ⟨Cls.Circle, 2⟩ reachable_circle2 rfl (Or.inl (by decide)) (by decide)⟩

/-- Claim C8, as stated, fails: the source over `{Circle, Square}` holds a
`Circle`, the destination list `{Square}` lacks `Circle`, and the conversion
is rejected when the program is built; the `assert(0)` of the exhausted scan
is not what ends it. -/
theorem convert_absent_type_not_assert :
    Reachable shapes Cls.Shape [Circle, Square] circle2 ∧
      circle2.storage = some ⟨Cls.Circle, 2⟩ ∧ Circle ∉ [Square] ∧
      dynamic_ptr.convert shapes Cls.Shape [Circle, Square] Cls.Shape [Square] circle2
        = Outcome.ill_formed ∧
      dynamic_ptr.convert shapes Cls.Shape [Circle, Square] Cls.Shape [Square] circle2
        ≠ Outcome.assert_failure :=
  ⟨reachable_circle2, rfl, by decide, by decide, by decide⟩

/-- Claim C8, amended. For every reachable source `dynamic_ptr` holding an
object whose class is not a member of the destination list, the conversion is
rejected at build time: the destination's constructor from that alternative
is disabled, so the dispatch chain does not instantiate.  No container, empty
or not, is ever returned, and the run-time `Invalid index` assertion is not
reached. -/
theorem convert_absent_type_ill_formed [DecidableEq C] (env : ClassEnv C V) (Base : C)
    (L : List (CppType C)) (OtherBase : C) (OtherL : List (CppType C)) (p : dynamic_ptr C V)
    (o : Obj C V) (h : Reachable env Base L p) (hs : p.storage = some o)
    (habsent : CppType.plain o.cls ∉ OtherL) :
    dynamic_ptr.convert env Base L OtherBase OtherL p = Outcome.ill_formed := by
  have hc := Reachable.consistent env Base L p h
  have hi := (dynamic_ptr.consistent_some env Base L p o hs).mp hc
  have hmem : CppType.plain o.cls ∈ L := detail.ith_mem _ _ _ hi.1
  have hinst : detail.make_other_copy_instantiable env Base OtherBase OtherL L = false := by
    cases hx : detail.make_other_copy_instantiable env Base OtherBase OtherL L with
    | false => rfl
    | true =>
      have := ((detail.make_other_copy_instantiable_iff env Base OtherBase OtherL L).mp hx
        _ hmem).2.1
      exact absurd this habsent
  unfold dynamic_ptr.convert
  split
  · rfl
  · simp [hinst]

theorem convert_absent_type_ill_formed_witness :
    Reachable shapes Cls.Shape [Circle, Square] circle2 ∧
      circle2.storage = some ⟨Cls.Circle, 2⟩ ∧
      CppType.plain Cls.Circle ∉ [Rectangle, Square] ∧
      dynamic_ptr.convert shapes Cls.Shape [Circle, Square] Cls.Shape [Rectangle, Square] circle2
        = Outcome.ill_formed :=
  ⟨reachable_circle2, rfl, by decide,
   convert_absent_type_ill_formed shapes Cls.Shape [Circle, Square] Cls.Shape
     [Rectangle, Square] circle2 ⟨Cls.Circle, 2⟩ reachable_circle2 rfl (by decide)⟩

/-! ## Build-time checks of the two class templates -/

/-- Claim C9 at its failing inputs: the list `{Circle, Circle}` names a type
twice and the list `{Circle, Text}` names a type not derived from `Shape`;
`static_ptr` over either is rejected by its static assertions, while
`dynamic_ptr` over either has no assertion to fail, and a container over
either list is built from a `Circle` and used.  (The list
`{const Circle, const Circle}` passes the assertions of `static_ptr` as well:
the duplicate test decays only the key.) -/
theorem dynamic_ptr_accepts_malformed_lists :
    detail.contains_duplicates [Circle, Circle] = true ∧
      class_instantiable (static_ptr.static_asserts shapes Cls.Shape [Circle, Circle]) = false ∧
      class_instantiable (dynamic_ptr.static_asserts shapes Cls.Shape [Circle, Circle]) = true ∧
      dynamic_ptr.construct shapes Cls.Shape [Circle, Circle] Circle ⟨Cls.Circle, 2⟩
        = Outcome.ok { storage := some ⟨Cls.Circle, 2⟩, stored_type_index := 0 } ∧
      detail.are_all_derived shapes Cls.Shape [Circle, Text] = false ∧
      class_instantiable (static_ptr.static_asserts shapes Cls.Shape [Circle, Text]) = false ∧
      class_instantiable (dynamic_ptr.static_asserts shapes Cls.Shape [Circle, Text]) = true ∧
      dynamic_ptr.construct shapes Cls.Shape [Circle, Text] Circle ⟨Cls.Circle, 2⟩
        = Outcome.ok { storage := some ⟨Cls.Circle, 2⟩, stored_type_index := 0 } ∧
      class_instantiable (static_ptr.static_asserts shapes Cls.Shape [ConstCircle, ConstCircle])
        = true := by
  decide

/-! ## Owning container: state machine -/

namespace detail

theorem ith_type_index_of_nodup {T : Type} [DecidableEq T] :
    ∀ (L : List T), L.Nodup → ∀ i : Int, 0 ≤ i → i < (L.length : Int) →
      ∃ t, ith i L = some t ∧ type_index t L = some i := by
  intro L
  induction L with
  | nil =>
    intro _ i h0 h1
    simp only [List.length_nil, Nat.cast_zero] at h1
    omega
  | cons x r ih =>
    intro hnd i h0 h1
    have hx : x ∉ r := (List.nodup_cons.mp hnd).1
    have hr : r.Nodup := (List.nodup_cons.mp hnd).2
    simp only [List.length_cons, Nat.cast_add, Nat.cast_one] at h1
    by_cases hi : i = 0
    · subst hi
      exact ⟨x, by simp [ith], by simp [type_index]⟩
    · obtain ⟨t, ht1, ht2⟩ := ih hr (i - 1) (by omega) (by omega)
      have htr : t ∈ r := ith_mem r (i - 1) t ht1
      have hne : ¬ t = x := fun e => hx (e ▸ htr)
      refine ⟨t, ?_, ?_⟩
      · simp only [ith]
        rw [if_neg hi]
        exact ht1
      · simp only [type_index]
        rw [if_neg hne, ht2]
        simp only [Option.map_some', Option.some.injEq]
        omega

end detail

/-- Claim C11. For every type `Key` and every ordered type list `L`,
`type_index` yields a value exactly when `Key` occurs in `L` (for an absent
type, and so for the empty list, there is no `value` and the use is rejected
at build time), and a value it yields is the zero-based position of `Key` in
`L`, hence in `[0, length L)`. -/
theorem type_index_iff_mem {T : Type} [DecidableEq T] (Key : T) (L : List T) :
    ((∃ i, detail.type_index Key L = some i) ↔ Key ∈ L) ∧
      detail.type_index Key ([] : List T) = none ∧
      (Key ∉ L → detail.type_index Key L = none) ∧
      (∀ i, detail.type_index Key L = some i →
        i = ((L.indexOf Key : Nat) : Int) ∧ 0 ≤ i ∧ i < (L.length : Int)) := by
  have hiff : (∃ i, detail.type_index Key L = some i) ↔ Key ∈ L :=
    ⟨fun ⟨i, hi⟩ => detail.type_index_mem Key L i hi,
     fun h => ⟨_, detail.type_index_eq_indexOf Key L h⟩⟩
  refine ⟨hiff, rfl, ?_, ?_⟩
  · intro hno
    cases hx : detail.type_index Key L with
    | none => rfl
    | some i => exact absurd (hiff.mp ⟨i, hx⟩) hno
  · intro i hi
    have hmem := detail.type_index_mem Key L i hi
    have hpos := detail.type_index_eq_indexOf Key L hmem
    have hb := detail.ith_some_bounds L i Key (detail.type_index_ith Key L i hi)
    rw [hi] at hpos
    exact ⟨Option.some.inj hpos, hb.1, hb.2⟩

theorem type_index_iff_mem_witness :
    ((∃ i, detail.type_index Square [Circle, Square] = some i) ↔ Square ∈ [Circle, Square]) ∧
      detail.type_index Square ([] : List (CppType Cls)) = none ∧
      (Square ∉ [Circle, Square] → detail.type_index Square [Circle, Square] = none) ∧
      (∀ i, detail.type_index Square [Circle, Square] = some i →
        i = (([Circle, Square].indexOf Square : Nat) : Int) ∧ 0 ≤ i ∧
          i < (([Circle, Square] : List (CppType Cls)).length : Int)) :=
  type_index_iff_mem Square [Circle, Square]

/-- Claim C19. For every type list `L` and every type `t` occurring in `L`,
`type_index` of `t` is defined and `ith` at that position is `t`; and for
every list `L` of `N` pairwise distinct types and every `i` with
`0 <= i < N`, `ith` at `i` is defined and `type_index` of it is `i`. -/
theorem type_position_round_trip {T : Type} [DecidableEq T] (L : List T) :
    (∀ t, t ∈ L → ∃ i, detail.type_index t L = some i ∧ detail.ith i L = some t) ∧
      (L.Nodup → ∀ i : Int, 0 ≤ i → i < (L.length : Int) →
        ∃ t, detail.ith i L = some t ∧ detail.type_index t L = some i) :=
  ⟨fun t ht =>
     ⟨_, detail.type_index_eq_indexOf t L ht,
       detail.type_index_ith t L _ (detail.type_index_eq_indexOf t L ht)⟩,
   detail.ith_type_index_of_nodup L⟩

theorem type_position_round_trip_witness :
    (∀ t, t ∈ [Circle, ConstCircle, Square] →
        ∃ i, detail.type_index t [Circle, ConstCircle, Square] = some i ∧
          detail.ith i [Circle, ConstCircle, Square] = some t) ∧
      ([Circle, ConstCircle, Square].Nodup → ∀ i : Int, 0 ≤ i →
        i < (([Circle, ConstCircle, Square] : List (CppType Cls)).length : Int) →
        ∃ t, detail.ith i [Circle, ConstCircle, Square] = some t ∧
          detail.type_index t [Circle, ConstCircle, Square] = some i) ∧
      [Circle, ConstCircle, Square].Nodup ∧
      detail.ith 1 [Circle, ConstCircle, Square] = some ConstCircle ∧
      detail.type_index ConstCircle [Circle, ConstCircle, Square] = some 1 :=
  ⟨(type_position_round_trip [Circle, ConstCircle, Square]).1,
   (type_position_round_trip [Circle, ConstCircle, Square]).2, by decide, by decide, by decide⟩


/-! ## Owning container: swap and copy assignment -/

/-- Claim C16. For every pair of containers `a` and `b`, after `swap(a, b)`
the first container has exactly the tag and the held value that `b` had and
the second has exactly those that `a` had (both fields move together); hence
the representation invariant of each, if it held before, holds afterwards,
`index() == -1` still coincides with `has_value()` being false whenever it
did, and swapping twice restores both containers. -/
theorem swap_exchanges_tag_and_storage (env : ClassEnv C V) (Base : C) (L : List (CppType C))
    (a b : dynamic_ptr C V) :
    ((dynamic_ptr.swap a b).1.index = b.index ∧ (dynamic_ptr.swap a b).1.storage = b.storage) ∧
      ((dynamic_ptr.swap a b).2.index = a.index ∧
        (dynamic_ptr.swap a b).2.storage = a.storage) ∧
      (Consistent env Base L a → Consistent env Base L b →
        Consistent env Base L (dynamic_ptr.swap a b).1 ∧
          Consistent env Base L (dynamic_ptr.swap a b).2) ∧
      ((a.index = -1 ↔ a.has_value = false) → (b.index = -1 ↔ b.has_value = false) →
        ((dynamic_ptr.swap a b).1.index = -1 ↔ (dynamic_ptr.swap a b).1.has_value = false) ∧
          ((dynamic_ptr.swap a b).2.index = -1 ↔
            (dynamic_ptr.swap a b).2.has_value = false)) ∧
      dynamic_ptr.swap (dynamic_ptr.swap a b).1 (dynamic_ptr.swap a b).2 = (a, b) := by
  refine ⟨⟨rfl, rfl⟩, ⟨rfl, rfl⟩, ?_, ?_, rfl⟩
  · intro ha hb
    rw [dynamic_ptr.swap_fst, dynamic_ptr.swap_snd]
    exact ⟨hb, ha⟩
  · intro ha hb
    rw [dynamic_ptr.swap_fst, dynamic_ptr.swap_snd]
    exact ⟨hb, ha⟩

theorem swap_exchanges_tag_and_storage_witness :
    Consistent shapes Cls.Shape [Circle, Square] circle2 ∧
      Consistent shapes Cls.Shape [Circle, Square] {} ∧
      (dynamic_ptr.swap circle2 {}).1 = ({} : dynamic_ptr Cls Nat) ∧
      (dynamic_ptr.swap circle2 {}).2 = circle2 ∧
      Consistent shapes Cls.Shape [Circle, Square] (dynamic_ptr.swap circle2 {}).1 ∧
      Consistent shapes Cls.Shape [Circle, Square] (dynamic_ptr.swap circle2 {}).2 ∧
      dynamic_ptr.swap (dynamic_ptr.swap circle2 {}).1 (dynamic_ptr.swap circle2 {}).2
        = (circle2, {}) :=
  ⟨Reachable.consistent _ _ _ _ reachable_circle2, Reachable.consistent _ _ _ _ reachable_empty,
   rfl, rfl,
   ((swap_exchanges_tag_and_storage shapes Cls.Shape [Circle, Square] circle2 {}).2.2.1
      (Reachable.consistent _ _ _ _ reachable_circle2)
      (Reachable.consistent _ _ _ _ reachable_empty)).1,
   ((swap_exchanges_tag_and_storage shapes Cls.Shape [Circle, Square] circle2 {}).2.2.1
      (Reachable.consistent _ _ _ _ reachable_circle2)
      (Reachable.consistent _ _ _ _ reachable_empty)).2,
   (swap_exchanges_tag_and_storage shapes Cls.Shape [Circle, Square] circle2 {}).2.2.2.2⟩


/-! ## Type-list utilities: duplicate detection -/

namespace detail

theorem contains_duplicates_eq_false_iff_nodup [DecidableEq C] :
    ∀ (L : List (CppType C)), (∀ U, U ∈ L → U.decay = U) →
      (contains_duplicates L = false ↔ L.Nodup) := by
  intro L
  induction L with
  | nil => intro _; simp [contains_duplicates]
  | cons x r ih =>
    intro hplain
    have hx : x.decay = x := hplain x (List.mem_cons_self x r)
    have hr : ∀ U, U ∈ r → U.decay = U := fun U hU => hplain U (List.mem_cons_of_mem x hU)
    have hone : is_one_of x r = true ↔ x ∈ r := by rw [is_one_of_iff, hx]
    simp only [contains_duplicates, Bool.or_eq_false_iff, List.nodup_cons, ih hr]
    constructor
    · rintro ⟨h1, h2⟩
      refine ⟨fun hmem => ?_, h2⟩
      rw [hone.mpr hmem] at h1
      cases h1
    · rintro ⟨h1, h2⟩
      refine ⟨?_, h2⟩
      cases hq : is_one_of x r with
      | false => rfl
      | true => exact absurd (hone.mp hq) h1

end detail

/-- Claim C12 at its failing inputs.  The lists `{const Circle, const Circle}`
and `{Circle &, Circle &}` name the same type at positions 0 and 1, yet
`contains_duplicates` is false for them; the list `{const Circle, Circle}`
consists of two distinct types, yet `contains_duplicates` is true for it.  For
the empty list it is false. -/
theorem contains_duplicates_on_qualified_lists :
    ([ConstCircle, ConstCircle].get? 0 = [ConstCircle, ConstCircle].get? 1 ∧
        ¬ [ConstCircle, ConstCircle].Nodup ∧
        detail.contains_duplicates [ConstCircle, ConstCircle] = false) ∧
      (¬ [CircleRef, CircleRef].Nodup ∧
        detail.contains_duplicates [CircleRef, CircleRef] = false) ∧
      ([ConstCircle, Circle].Nodup ∧ detail.contains_duplicates [ConstCircle, Circle] = true) ∧
      detail.contains_duplicates ([] : List (CppType Cls)) = false := by
  decide


/-! ## Owning container: copy assignment and conversion of the empty container -/

theorem is_derived_of_plain_member [DecidableEq C] (L : List (CppType C)) (p : dynamic_ptr C V)
    (T : CppType C) (hT : T ∈ L) (hplain : T.decay = T) :
    dynamic_ptr.is_derived L p T
      = Outcome.ok (decide (p.stored_type_index = ((L.indexOf T : Nat) : Int))) := by
  have hone : detail.is_one_of T L = true := (detail.is_one_of_iff T L).mpr (by rw [hplain]; exact hT)
  simp only [dynamic_ptr.is_derived, hone, hplain, detail.type_index_eq_indexOf T L hT,
    Bool.not_true, Bool.false_eq_true, if_false]

/-- Claim C15, as stated, fails over a list with a cv-qualified alternative:
`{Circle, const Circle}` consists of two distinct types (and passes the
duplicate test of the code), all derived from `Shape`; the container built from
`Circle{2}` is reachable and non-empty, and `is_derived<T>()` is true for both
listed types. -/
theorem is_derived_matches_two_alternatives :
    Reachable shapes Cls.Shape [Circle, ConstCircle] circle2 ∧ circle2.has_value = true ∧
      [Circle, ConstCircle].Nodup ∧
      detail.contains_duplicates [Circle, ConstCircle] = false ∧
      detail.are_all_derived shapes Cls.Shape [Circle, ConstCircle] = true ∧
      Circle ≠ ConstCircle ∧
      dynamic_ptr.is_derived [Circle, ConstCircle] circle2 Circle = Outcome.ok true ∧
      dynamic_ptr.is_derived [Circle, ConstCircle] circle2 ConstCircle = Outcome.ok true :=
  ⟨Reachable.construct Cls.Shape [Circle, ConstCircle] Circle ⟨Cls.Circle, 2⟩ circle2 (by decide),
   by decide, by decide, by decide, by decide, by decide, by decide, by decide⟩

/-- Claim C15, amended. For every reachable state of a `dynamic_ptr` that holds
an object, over a list of pairwise distinct, unqualified class types: the class
of the held object is listed, `is_derived<T>()` is true for that listed `T`
and false for every other listed type, so it is true for exactly one listed
`T`; and for that `T`, `downcast<T>()` returns the held object without
signalling a mismatch. -/
theorem exactly_one_alternative_matches [DecidableEq C] (env : ClassEnv C V) (Base : C)
    (L : List (CppType C)) (p : dynamic_ptr C V) (o : Obj C V) (h : Reachable env Base L p)
    (hs : p.storage = some o) (hnd : L.Nodup) (hplain : ∀ U, U ∈ L → U.decay = U) :
    CppType.plain o.cls ∈ L ∧
      dynamic_ptr.is_derived L p (CppType.plain o.cls) = Outcome.ok true ∧
      (∀ T, T ∈ L → T ≠ CppType.plain o.cls → dynamic_ptr.is_derived L p T = Outcome.ok false) ∧
      (∀ T, T ∈ L → dynamic_ptr.is_derived L p T = Outcome.ok true → T = CppType.plain o.cls) ∧
      dynamic_ptr.downcast env Base p (CppType.plain o.cls) = Outcome.ok o := by
  have hc := Reachable.consistent env Base L p h
  have hi := (dynamic_ptr.consistent_some env Base L p o hs).mp hc
  have hb := detail.ith_some_bounds _ _ _ hi.1
  have hmem : CppType.plain o.cls ∈ L := detail.ith_mem _ _ _ hi.1
  have hpos : detail.type_index (CppType.plain o.cls) L = some p.stored_type_index := by
    obtain ⟨t, ht1, ht2⟩ := detail.ith_type_index_of_nodup L hnd p.stored_type_index hb.1 hb.2
    have : t = CppType.plain o.cls := Option.some.inj (ht1.symm.trans hi.1)
    rw [← this]
    exact ht2
  have hidx : p.stored_type_index = ((L.indexOf (CppType.plain o.cls) : Nat) : Int) := by
    rw [detail.type_index_eq_indexOf _ _ hmem] at hpos
    exact (Option.some.inj hpos).symm
  have hother : ∀ T, T ∈ L → T ≠ CppType.plain o.cls →
      dynamic_ptr.is_derived L p T = Outcome.ok false := by
    intro T hT hne
    rw [is_derived_of_plain_member L p T hT (hplain T hT)]
    have hneq : ¬ p.stored_type_index = ((L.indexOf T : Nat) : Int) := by
      intro heq
      have h1 := detail.type_index_eq_indexOf T L hT
      rw [← heq] at h1
      have h2 := detail.type_index_ith T L _ h1
      exact hne (Option.some.inj (h2.symm.trans hi.1))
    simp only [hneq, decide_False]
  refine ⟨hmem, ?_, hother, ?_, ?_⟩
  · rw [is_derived_of_plain_member L p _ hmem (hplain _ hmem)]
    simp only [hidx, decide_True]
  · intro T hT htrue
    by_contra hne
    rw [hother T hT hne] at htrue
    cases htrue
  · have hbase : is_base_of_v env Base (CppType.plain o.cls) = true := by
      simp only [is_base_of_v, CppType.plain, decide_True, Bool.true_and]
      exact hi.2
    have hnm : (CppType.plain o.cls).name = o.cls := rfl
    simp only [dynamic_ptr.downcast, hbase, hs, hnm, env.derives_refl, Bool.not_true,
      Bool.false_eq_true, if_false, if_true]

theorem exactly_one_alternative_matches_witness :
    Reachable shapes Cls.Shape [Circle, Square] circle2 ∧
      circle2.storage = some ⟨Cls.Circle, 2⟩ ∧ [Circle, Square].Nodup ∧
      (∀ U, U ∈ [Circle, Square] → U.decay = U) ∧
      (CppType.plain Cls.Circle ∈ [Circle, Square] ∧
        dynamic_ptr.is_derived [Circle, Square] circle2 (CppType.plain Cls.Circle)
          = Outcome.ok true ∧
        (∀ T, T ∈ [Circle, Square] → T ≠ CppType.plain Cls.Circle →
          dynamic_ptr.is_derived [Circle, Square] circle2 T = Outcome.ok false) ∧
        (∀ T, T ∈ [Circle, Square] →
          dynamic_ptr.is_derived [Circle, Square] circle2 T = Outcome.ok true →
          T = CppType.plain Cls.Circle) ∧
        dynamic_ptr.downcast shapes Cls.Shape circle2 (CppType.plain Cls.Circle)
          = Outcome.ok ⟨Cls.Circle, 2⟩) :=
  ⟨reachable_circle2, rfl, by decide, by decide,
   exactly_one_alternative_matches shapes Cls.Shape [Circle, Square] circle2 ⟨Cls.Circle, 2⟩
     reachable_circle2 rfl (by decide) (by decide)⟩


/-! ## The copy dispatch on reachable states -/

namespace detail

theorem make_ith_copy_steps_le (p : dynamic_ptr C V) :
    ∀ (L : List (CppType C)) (idx : Int), make_ith_copy_steps p L idx ≤ L.length := by
  intro L
  induction L with
  | nil => intro idx; simp [make_ith_copy_steps]
  | cons x r ih =>
    intro idx
    simp only [make_ith_copy_steps, List.length_cons]
    split
    · omega
    · split
      · omega
      · split
        · omega
        · have := ih (idx - 1)
          omega

theorem make_ith_copy_hit_of_derives (env : ClassEnv C V) (Base : C) (p : dynamic_ptr C V)
    (o : Obj C V) (hs : p.storage = some o) (hd : env.derives Base o.cls = true) :
    ∀ (L : List (CppType C)) (idx : Int), ith idx L = some (CppType.plain o.cls) →
      make_ith_copy env Base p L idx = Outcome.ok (some ⟨o.cls, o.val⟩) ∧
        make_ith_copy_steps p L idx = idx.toNat + 1 := by
  intro L
  induction L with
  | nil => intro idx h; simp [ith] at h
  | cons x r ih =>
    intro idx hith
    have hb := ith_some_bounds _ _ _ hith
    have hv : p.has_value = true := by simp [dynamic_ptr.has_value, hs]
    have hne : idx ≠ -1 := by omega
    simp only [ith] at hith
    simp only [make_ith_copy, make_ith_copy_steps, hv, hne, ne_eq, not_false_eq_true, decide_True,
      bne_self_eq_false, Bool.false_eq_true, if_false, Bool.not_true]
    by_cases h0 : idx = 0
    · rw [if_pos h0] at hith
      rw [if_pos h0, if_pos h0]
      have hx : x = CppType.plain o.cls := Option.some.inj hith
      subst hx
      have hbase : is_base_of_v env Base (CppType.plain o.cls) = true := by
        simp only [is_base_of_v, CppType.plain, decide_True, Bool.true_and]
        exact hd
      have hnm : (CppType.plain o.cls).name = o.cls := rfl
      subst h0
      simp only [dynamic_ptr.downcast, hbase, hs, hnm, env.derives_refl, Bool.not_true,
        Bool.false_eq_true, if_false, if_true, Outcome.bind, env.slice_self, Int.toNat_zero,
        zero_add, and_self]
    · rw [if_neg h0] at hith
      rw [if_neg h0, if_neg h0]
      obtain ⟨h1, h2⟩ := ih (idx - 1) hith
      refine ⟨h1, ?_⟩
      rw [h2]
      have hb2 := ith_some_bounds _ _ _ hith
      omega

end detail

/-- The copy dispatch over a list with at least one alternative: for every
reachable state the scan started at the tag returns normally (so no assertion
of a step fails, the checked downcast does not throw, and the `assert(0)`
overload is not reached), its result is a copy of the storage, and it makes at
most `N` calls. -/
theorem make_ith_copy_on_reachable [DecidableEq C] (env : ClassEnv C V) (Base : C)
    (L : List (CppType C)) (p : dynamic_ptr C V) (h : Reachable env Base L p) (hne : L ≠ []) :
    detail.make_ith_copy env Base p L p.stored_type_index = Outcome.ok p.storage ∧
      detail.make_ith_copy_steps p L p.stored_type_index ≤ L.length := by
  have hc := Reachable.consistent env Base L p h
  refine ⟨?_, detail.make_ith_copy_steps_le p L _⟩
  cases hs : p.storage with
  | none =>
    have hi := (dynamic_ptr.consistent_none env Base L p hs).mp hc
    cases L with
    | nil => exact absurd rfl hne
    | cons x r => rw [hi]; exact detail.make_ith_copy_empty env Base p hs x r
  | some o =>
    have hi := (dynamic_ptr.consistent_some env Base L p o hs).mp hc
    exact (detail.make_ith_copy_hit_of_derives env Base p o hs hi.2 L _ hi.1).1

/-- Claim C20 at its failing input: over the list with no alternatives the
default-constructed container is reachable, its copy constructor builds, and
the scan started at its tag `-1` is the `assert(0)` overload, so copying the
empty container ends in the failed `Invalid index` assertion instead of
returning a null pointer. -/
theorem make_ith_copy_empty_list_asserts :
    Reachable shapes Cls.Shape [] {} ∧
      ({} : dynamic_ptr Cls Nat).stored_type_index = -1 ∧
      detail.make_ith_copy_instantiable shapes Cls.Shape [] = true ∧
      detail.make_ith_copy shapes Cls.Shape {} [] (-1) = Outcome.assert_failure ∧
      dynamic_ptr.copy shapes Cls.Shape [] {} = Outcome.assert_failure ∧
      detail.make_ith_copy shapes Cls.Shape {} [Circle] (-1) = Outcome.ok none :=
  ⟨Reachable.default _ _, rfl, by decide, by decide, by decide, by decide⟩


/-! ## Inline container -/

theorem indexOf_map_of_inj_on {α β : Type} [DecidableEq α] [DecidableEq β] (f : α → β) (x : α) :
    ∀ (L : List α), x ∈ L → (∀ y, y ∈ L → f y = f x → y = x) →
      (L.map f).indexOf (f x) = L.indexOf x := by
  intro L
  induction L with
  | nil => intro h; simp at h
  | cons y r ih =>
    intro hx hinj
    by_cases hy : y = x
    · subst hy
      simp
    · have hfy : f y ≠ f x := fun e => hy (hinj y (List.mem_cons_self y r) e)
      have hxr : x ∈ r := by
        rcases List.mem_cons.mp hx with h1 | h1
        · exact absurd h1.symm hy
        · exact h1
      rw [List.map_cons, List.indexOf_cons_ne _ hfy, List.indexOf_cons_ne _ hy,
        ih hxr (fun z hz => hinj z (List.mem_cons_of_mem y hz))]

theorem plain_name_inj (U W : CppType C) (hU : U.decay = U) (hW : W.decay = W)
    (h : U.name = W.name) : U = W := by
  rw [← hU, ← hW]
  simp only [CppType.decay, h]

theorem static_asserts_nodup [DecidableEq C] (env : ClassEnv C V) (Base : C)
    (L : List (CppType C))
    (hasserts : class_instantiable (static_ptr.static_asserts env Base L) = true)
    (hplain : ∀ U, U ∈ L → U.decay = U) : L.Nodup := by
  simp only [class_instantiable, static_ptr.static_asserts, List.all_cons, List.all_nil, id,
    Bool.and_true, Bool.and_eq_true, Bool.not_eq_true'] at hasserts
  exact (detail.contains_duplicates_eq_false_iff_nodup L hplain).mp hasserts.2

theorem variant_converting_index_of_member [DecidableEq C] (L : List (CppType C))
    (T D : CppType C) (hT : T ∈ L) (hD : D.decay = T) (hvol : D.is_volatile = false)
    (hnd : L.Nodup) (hplain : ∀ U, U ∈ L → U.decay = U) :
    variant_converting_index D L = some (L.indexOf T) := by
  have hname : D.name = T.name := by rw [← hD]; rfl
  have hinj : ∀ x, x ∈ L → ∀ y, y ∈ L → x.name = y.name → x = y :=
    fun x hx y hy e => plain_name_inj x y (hplain x hx) (hplain y hy) e
  have hnd2 : (L.map CppType.name).Nodup := List.Nodup.map_on hinj hnd
  have hmem : T.name ∈ L.map CppType.name := List.mem_map_of_mem CppType.name hT
  have hcount := List.count_eq_one_of_mem hnd2 hmem
  have hidx := indexOf_map_of_inj_on CppType.name T L hT (fun y hy e => hinj y hy T hT e)
  simp only [variant_converting_index, constructible_from_forwarded, hvol, hname, hcount, hidx,
    Bool.not_false, Bool.not_true, Bool.false_eq_true, if_false, if_true]

theorem static_is_derived_of_member [DecidableEq C] (L : List (CppType C)) (s : static_ptr C V)
    (U : CppType C) (hU : U ∈ L) (hnd : L.Nodup) (hplain : ∀ W, W ∈ L → W.decay = W) :
    static_ptr.is_derived L s U
      = Outcome.ok (decide (s.storage.map Prod.fst = some (L.indexOf U))) := by
  have hone : detail.is_one_of U L = true :=
    (detail.is_one_of_iff U L).mpr (by rw [hplain U hU]; exact hU)
  have hcount := List.count_eq_one_of_mem hnd hU
  simp only [static_ptr.is_derived, hone, hcount, Bool.not_true, Bool.false_eq_true, if_false,
    ne_eq, not_true_eq_false]


/-- Claim C17, as stated, fails for a cv-qualified alternative: the list
`{const Circle}` passes both static assertions of `static_ptr`, yet for its
listed type `const Circle` the constructor from a value is disabled, and
`is_derived<const Circle>()` on the default-constructed container is disabled
as well instead of returning false.  (Over `{Circle}` an argument expression
of type `volatile Circle &` passes the guard, but the variant has no
alternative that can be built from it.) -/
theorem static_ptr_const_alternative_rejected :
    ConstCircle ∈ [ConstCircle] ∧
      class_instantiable (static_ptr.static_asserts shapes Cls.Shape [ConstCircle]) = true ∧
      static_ptr.default_construct shapes Cls.Shape [ConstCircle] = Outcome.ok {} ∧
      static_ptr.construct shapes Cls.Shape [ConstCircle] ConstCircle ⟨Cls.Circle, 2⟩
        = Outcome.ill_formed ∧
      static_ptr.is_derived [ConstCircle] ({} : static_ptr Cls Nat) ConstCircle
        = Outcome.ill_formed ∧
      static_ptr.construct shapes Cls.Shape [Circle] VolatileCircleRef ⟨Cls.Circle, 2⟩
        = Outcome.ill_formed := by
  decide

/-- Claim C17, amended. For every list `L` of unqualified class types that
passes the static assertions of `static_ptr`: the default-constructed
container has `has_value()` false and `is_derived<U>()` false for every listed
`U`; for every listed `T` and value `v` of `T`, the container constructed from
`v` (whatever the value category and constness of the argument expression,
which is not volatile-qualified) holds `v`, has `has_value()` true, `is_derived<T>()` true and `is_derived<U>()` false for every other
listed `U`; and in every state `has_value()` is true exactly when an
alternative of the list, not `std::monostate`, is held. -/
theorem static_ptr_emptiness_and_type_query [DecidableEq C] (env : ClassEnv C V) (Base : C)
    (L : List (CppType C))
    (hasserts : class_instantiable (static_ptr.static_asserts env Base L) = true)
    (hplain : ∀ U, U ∈ L → U.decay = U) :
    (static_ptr.default_construct env Base L = Outcome.ok {} ∧
        ({} : static_ptr C V).has_value = false ∧
        ∀ U, U ∈ L → static_ptr.is_derived L ({} : static_ptr C V) U = Outcome.ok false) ∧
      (∀ T D : CppType C, T ∈ L → D.decay = T → D.is_volatile = false → ∀ v : V,
        ∃ s, static_ptr.construct env Base L D ⟨T.name, v⟩ = Outcome.ok s ∧
          s.has_value = true ∧ s.get = some ⟨T.name, v⟩ ∧
          static_ptr.is_derived L s T = Outcome.ok true ∧
          ∀ U, U ∈ L → U ≠ T → static_ptr.is_derived L s U = Outcome.ok false) ∧
      (∀ s : static_ptr C V, s.has_value = true ↔ ∃ j o, s.storage = some (j, o)) := by
  have hnd := static_asserts_nodup env Base L hasserts hplain
  refine ⟨⟨?_, rfl, ?_⟩, ?_, ?_⟩
  · simp only [static_ptr.default_construct, hasserts, Bool.not_true, Bool.false_eq_true, if_false]
  · intro U hU
    rw [static_is_derived_of_member L _ U hU hnd hplain]
    rfl
  · intro T D hT hD hvol v
    have hname : D.name = T.name := by rw [← hD]; rfl
    have hone : detail.is_one_of D L = true :=
      (detail.is_one_of_iff D L).mpr (by rw [hD]; exact hT)
    have hsel := variant_converting_index_of_member L T D hT hD hvol hnd hplain
    refine ⟨{ storage := some (L.indexOf T, ⟨T.name, v⟩) }, ?_, rfl, rfl, ?_, ?_⟩
    · simp only [static_ptr.construct, hasserts, hone, hname, hsel, env.derives_refl,
        env.slice_self, Bool.not_true, Bool.false_eq_true, if_false]
    · rw [static_is_derived_of_member L _ T hT hnd hplain]
      simp only [Option.map_some', decide_True]
    · intro U hU hne
      rw [static_is_derived_of_member L _ U hU hnd hplain]
      have hidx : ¬ L.indexOf T = L.indexOf U := fun e => hne ((List.indexOf_inj hT hU).mp e).symm
      simp only [Option.map_some', Option.some.injEq, hidx, decide_False]
  · intro s
    cases hs : s.storage with
    | none => simp [static_ptr.has_value, static_ptr.get, hs]
    | some jo =>
      simp only [static_ptr.has_value, static_ptr.get, hs, Option.map_some', Option.isSome_some,
        Option.some.injEq, true_iff]
      exact ⟨jo.1, jo.2, rfl⟩

theorem static_ptr_emptiness_and_type_query_witness :
    class_instantiable (static_ptr.static_asserts shapes Cls.Shape [Rectangle, Square]) = true ∧
      (∀ U, U ∈ [Rectangle, Square] → U.decay = U) ∧
      ((static_ptr.default_construct shapes Cls.Shape [Rectangle, Square] = Outcome.ok {} ∧
          ({} : static_ptr Cls Nat).has_value = false ∧
          ∀ U, U ∈ [Rectangle, Square] →
            static_ptr.is_derived [Rectangle, Square] ({} : static_ptr Cls Nat) U
              = Outcome.ok false) ∧
        (∀ T D : CppType Cls, T ∈ [Rectangle, Square] → D.decay = T →
          D.is_volatile = false → ∀ v : Nat,
          ∃ s, static_ptr.construct shapes Cls.Shape [Rectangle, Square] D ⟨T.name, v⟩
              = Outcome.ok s ∧
            s.has_value = true ∧ s.get = some ⟨T.name, v⟩ ∧
            static_ptr.is_derived [Rectangle, Square] s T = Outcome.ok true ∧
            ∀ U, U ∈ [Rectangle, Square] → U ≠ T →
              static_ptr.is_derived [Rectangle, Square] s U = Outcome.ok false) ∧
        (∀ s : static_ptr Cls Nat, s.has_value = true ↔ ∃ j o, s.storage = some (j, o))) ∧
      static_ptr.construct shapes Cls.Shape [Rectangle, Square] Square ⟨Cls.Square, 3⟩
        = Outcome.ok { storage := some (1, ⟨Cls.Square, 3⟩) } ∧
      static_ptr.is_derived [Rectangle, Square]
        ({ storage := some (1, ⟨Cls.Square, 3⟩) } : static_ptr Cls Nat) Rectangle
        = Outcome.ok false :=
  ⟨by decide, by decide,
   static_ptr_emptiness_and_type_query shapes Cls.Shape [Rectangle, Square] (by decide)
     (by decide),
   by decide, by decide⟩

/-- Claim C18, as stated, fails when the held alternative derives from the
requested type: the `static_ptr` over `{Rectangle, Square}` constructed from
`Square{3}` holds a `Square`, which is not exactly `Rectangle`, yet
`downcast<Rectangle>()` returns the held object instead of failing and
`downcast_if<Rectangle>()` is not empty; the same holds for the base
`Shape` itself. -/
theorem static_downcast_to_base_succeeds :
    static_ptr.construct shapes Cls.Shape [Rectangle, Square] Square ⟨Cls.Square, 3⟩
        = Outcome.ok { storage := some (1, ⟨Cls.Square, 3⟩) } ∧
      Square ≠ Rectangle ∧ is_base_of_v shapes Cls.Shape Rectangle = true ∧
      static_ptr.downcast shapes Cls.Shape { storage := some (1, ⟨Cls.Square, 3⟩) } Rectangle
        = Outcome.ok ⟨Cls.Square, 3⟩ ∧
      static_ptr.downcast_if shapes Cls.Shape { storage := some (1, ⟨Cls.Square, 3⟩) } Rectangle
        = Outcome.ok (some ⟨Cls.Square, 3⟩) ∧
      static_ptr.downcast shapes Cls.Shape { storage := some (1, ⟨Cls.Square, 3⟩) }
        (CppType.plain Cls.Shape) = Outcome.ok ⟨Cls.Square, 3⟩ := by
  decide

/-- Claim C18, amended. For every `static_ptr` holding an object of class `U`
and every type `T` that is-a `Base`: `downcast<T>()` returns the held object
when `U` is exactly `T` and, more generally, when `U` is `T` or derives from
`T`; it fails with `std::bad_cast` when `U` is neither `T` nor derived from
`T`; `downcast_if<T>()` never fails and returns the held object in the first
case and nothing in the second. -/
theorem static_downcast_by_dynamic_type (env : ClassEnv C V) (Base : C) (s : static_ptr C V)
    (j : Nat) (o : Obj C V) (T : CppType C) (hs : s.storage = some (j, o))
    (hT : is_base_of_v env Base T = true) :
    (T.name = o.cls →
        static_ptr.downcast env Base s T = Outcome.ok o ∧
        static_ptr.downcast_if env Base s T = Outcome.ok (some o)) ∧
      (env.derives T.name o.cls = true →
        static_ptr.downcast env Base s T = Outcome.ok o ∧
        static_ptr.downcast_if env Base s T = Outcome.ok (some o)) ∧
      (env.derives T.name o.cls = false →
        static_ptr.downcast env Base s T = Outcome.bad_cast ∧
        static_ptr.downcast_if env Base s T = Outcome.ok none) ∧
      ∃ r, static_ptr.downcast_if env Base s T = Outcome.ok r := by
  have hg : s.get = some o := by simp [static_ptr.get, hs]
  have hyes : env.derives T.name o.cls = true →
      static_ptr.downcast env Base s T = Outcome.ok o ∧
      static_ptr.downcast_if env Base s T = Outcome.ok (some o) := by
    intro hd
    simp [static_ptr.downcast, static_ptr.downcast_if, hT, hg, hd]
  have hno : env.derives T.name o.cls = false →
      static_ptr.downcast env Base s T = Outcome.bad_cast ∧
      static_ptr.downcast_if env Base s T = Outcome.ok none := by
    intro hd
    simp [static_ptr.downcast, static_ptr.downcast_if, hT, hg, hd]
  refine ⟨fun hn => hyes (by rw [hn]; exact env.derives_refl o.cls), hyes, hno, ?_⟩
  cases hd : env.derives T.name o.cls with
  | true => exact ⟨_, (hyes hd).2⟩
  | false => exact ⟨_, (hno hd).2⟩

theorem static_downcast_by_dynamic_type_witness :
    ({ storage := some (0, ⟨Cls.Circle, 2⟩) } : static_ptr Cls Nat).storage
        = some (0, ⟨Cls.Circle, 2⟩) ∧
      is_base_of_v shapes Cls.Shape Square = true ∧
      shapes.derives Square.name Cls.Circle = false ∧
      static_ptr.downcast shapes Cls.Shape { storage := some (0, ⟨Cls.Circle, 2⟩) } Square
        = Outcome.bad_cast ∧
      static_ptr.downcast_if shapes Cls.Shape { storage := some (0, ⟨Cls.Circle, 2⟩) } Square
        = Outcome.ok none :=
  ⟨rfl, by decide, by decide,
   ((static_downcast_by_dynamic_type shapes Cls.Shape
      { storage := some (0, ⟨Cls.Circle, 2⟩) } 0 ⟨Cls.Circle, 2⟩ Square rfl (by decide)).2.2.1
      (by decide)).1,
   ((static_downcast_by_dynamic_type shapes Cls.Shape
      { storage := some (0, ⟨Cls.Circle, 2⟩) } 0 ⟨Cls.Circle, 2⟩ Square rfl (by decide)).2.2.1
      (by decide)).2⟩

end polymorphic_memory
